import Mathlib

/-!
Verification of the karva test runner against its specification.

This file gives a shallow embedding, in Lean 4, of the parts of the karva
repository that the claims under scrutiny are about:

* the snapshot assertion API (crates/karva_test_semantic/src/extensions/functions/snapshot.rs),
* the inline snapshot rewriter (crates/karva_snapshot/src/inline.rs),
* test result classification and the fixture runner
  (crates/karva_test_semantic/src/runner/package_runner.rs),
* finalizer teardown (crates/karva_test_semantic/src/extensions/fixtures/finalizer.rs).

Guest-language (Python) effects — calling a fixture callable, advancing a
generator, reading the caller frame — are modelled as explicit inputs; the
filesystem is modelled as a read function plus a list of write events.
Rust strings are modelled as Lean strings (byte positions become character
positions; the scanned sources are ASCII so the two coincide).
-/

namespace Karva

/-! ## Common string utilities mirroring Rust std

These are executable list-based implementations (Lean core's String.replace,
String.trimRight and friends do not reduce inside the kernel), used so every
definition in this file evaluates on concrete inputs. -/

/-- Trim trailing whitespace from a character list (Rust `str::trim_end`). -/
def charsTrimRight (l : List Char) : List Char :=
  (l.reverse.dropWhile Char.isWhitespace).reverse

/-- Trim leading whitespace from a character list (Rust `str::trim_start`). -/
def charsTrimLeft (l : List Char) : List Char :=
  l.dropWhile Char.isWhitespace

/-- Trim whitespace on both ends (Rust `str::trim`). -/
def charsTrim (l : List Char) : List Char :=
  charsTrimLeft (charsTrimRight l)

/-- Trim trailing whitespace of a string. -/
def strTrimRight (s : String) : String := ⟨charsTrimRight s.data⟩

/-- Trim whitespace on both ends of a string. -/
def strTrim (s : String) : String := ⟨charsTrim s.data⟩

/-- Worker for splitChars, structurally recursive on fuel so that it reduces
inside the kernel; the wrapper passes the list length, which the scan never
exceeds. -/
def splitCharsGo (sep : List Char) : Nat → List Char → List (List Char)
  | _, [] => [[]]
  | 0, l => [l]
  | fuel + 1, c :: rest =>
    if sep.isPrefixOf (c :: rest) && !sep.isEmpty then
      [] :: splitCharsGo sep fuel (List.drop (sep.length - 1) rest)
    else
      match splitCharsGo sep fuel rest with
      | [] => [[c]]
      | g :: gs => (c :: g) :: gs

/-- Split a character list on a non-empty separator (Rust `str::split` /
`String::split_on`). The empty list yields one empty group. -/
def splitChars (sep l : List Char) : List (List Char) :=
  splitCharsGo sep l.length l

/-- Worker for replaceChars, structurally recursive on fuel. -/
def replaceCharsGo (pat rep : List Char) : Nat → List Char → List Char
  | _, [] => []
  | 0, l => l
  | fuel + 1, c :: rest =>
    if pat.isPrefixOf (c :: rest) && !pat.isEmpty then
      rep ++ replaceCharsGo pat rep fuel (List.drop (pat.length - 1) rest)
    else
      c :: replaceCharsGo pat rep fuel rest

/-- Replace every non-overlapping occurrence of a non-empty pattern
(Rust `str::replace`). -/
def replaceChars (pat rep l : List Char) : List Char :=
  replaceCharsGo pat rep l.length l

/-- Replace every occurrence of a pattern in a string. -/
def strReplace (s pat rep : String) : String := ⟨replaceChars pat.data rep.data s.data⟩

/-- Interleave a separator between groups (Rust `[&str]::join`). -/
def intercalateChars (sep : List Char) : List (List Char) → List Char
  | [] => []
  | [x] => x
  | x :: xs => x ++ sep ++ intercalateChars sep xs

/-- Join strings with a separator. -/
def strIntercalate (sep : String) (parts : List String) : String :=
  ⟨intercalateChars sep.data (parts.map String.data)⟩

/-- Mirrors Rust `str::lines` on a character list: split on newline, with no
trailing empty line for a trailing newline, and no lines at all for the
empty input. -/
def rustLinesChars (l : List Char) : List (List Char) :=
  if l.isEmpty then []
  else splitChars ['\n'] (if l.getLast? = some '\n' then l.dropLast else l)

/-- Mirrors Rust `str::lines` on a string. -/
def rustLines (s : String) : List String :=
  (rustLinesChars s.data).map fun l => ⟨l⟩

/-- Number of leading whitespace characters of a line,
mirroring Rust `line.len() - line.trim_start().len()`. -/
def lineIndentLen (line : String) : Nat :=
  (line.data.takeWhile Char.isWhitespace).length

/-! ## Inline rewriter: dedent (crates/karva_snapshot/src/inline.rs) -/

/-- Embeds `dedent` from inline.rs: strip the common leading whitespace of all
non-empty lines and strip leading/trailing empty lines. -/
def dedent (raw : String) : String :=
  let lines := rustLinesChars raw.data
  let min_indent :=
    match (lines.filter (fun l => !(charsTrim l).isEmpty)).map
        (fun l => (l.takeWhile Char.isWhitespace).length) with
    | [] => 0
    | x :: xs => xs.foldl Nat.min x
  let dedented := lines.map (fun l =>
    if min_indent ≤ l.length then l.drop min_indent else charsTrim l)
  let first_non_empty := (dedented.findIdx? (fun l => !(charsTrim l).isEmpty)).getD 0
  let last_non_empty :=
    match dedented.reverse.findIdx? (fun l => !(charsTrim l).isEmpty) with
    | some j => dedented.length - j
    | none => 0
  if last_non_empty ≤ first_non_empty then ""
  else ⟨intercalateChars ['\n'] ((dedented.drop first_non_empty).take (last_non_empty - first_non_empty))⟩

/-- Location of an inline snapshot string literal in source code
(InlineLocation in inline.rs; the Rust field named end is called stop here
because end is a Lean keyword). Offsets include the quotes. -/
structure InlineLocation where
  start : Nat
  stop : Nat
  indent : Nat
deriving DecidableEq, Repr

/-- Embeds `generate_inline_literal` from inline.rs: single-line values become
a double-quoted string with backslash and double quote escaped; values with
newlines become a triple-quoted block with a leading backslash continuation,
each line indented by the call column plus 4, closing quotes at the call
column. -/
def generate_inline_literal (value : String) (indent : Nat) : String :=
  let indent_str : List Char := List.replicate indent ' '
  let content_indent : List Char := List.replicate (indent + 4) ' '
  if !value.data.contains '\n' then
    let escaped := replaceChars ['\\'] ['\\', '\\'] value.data
    let escaped := replaceChars ['"'] ['\\', '"'] escaped
    ⟨'"' :: escaped ++ ['"']⟩
  else
    let body := (rustLinesChars value.data).foldl (fun acc line =>
      if line.isEmpty then acc ++ ['\n']
      else
        let escaped := replaceChars ['\\'] ['\\', '\\'] line
        let escaped := replaceChars ['"', '"', '"'] ['\\', '"', '\\', '"', '\\', '"'] escaped
        acc ++ content_indent ++ escaped ++ ['\n'])
      (['"', '"', '"', '\\'] ++ ['\n'])
    ⟨body ++ indent_str ++ ['"', '"', '"']⟩

/-- Recognized snapshot call openers (SNAPSHOT_CALL_PATTERNS in inline.rs). -/
def SNAPSHOT_CALL_PATTERNS : List (List Char) :=
  ["assert_snapshot(".data, "assert_json_snapshot(".data, "assert_cmd_snapshot(".data]

/-- First index at which a pattern occurs in a character list
(Rust `str::find` with a string pattern). -/
def findSub (pat : List Char) : List Char → Option Nat
  | [] => if pat.isEmpty then some 0 else none
  | c :: rest =>
    if pat.isPrefixOf (c :: rest) then some 0
    else (findSub pat rest).map (· + 1)

/-- Embeds `find_snapshot_call` from inline.rs: the earliest match among the
recognized call openers (first pattern wins a tie, as with min_by_key). -/
def find_snapshot_call (s : List Char) : Option (Nat × List Char) :=
  match SNAPSHOT_CALL_PATTERNS.filterMap
      (fun pat => (findSub pat s).map (fun pos => (pos, pat))) with
  | [] => none
  | x :: xs => some (xs.foldl (fun best y => if y.1 < best.1 then y else best) x)

/-- Worker for the quote-end scanners of inline.rs: from index i, skip
escaped characters (backslash advances by two) and return the first index
where the quote sequence occurs. Fuel bounds the loop; the wrappers pass
enough fuel for the index to reach the end of the source. -/
def find_quote_end_go (source : List Char) (quote : List Char) :
    Nat → Nat → Option Nat
  | 0, _ => none
  | fuel + 1, i =>
    if h : i < source.length then
      if source.get ⟨i, h⟩ = '\\' then
        find_quote_end_go source quote fuel (i + 2)
      else if quote.isPrefixOf (source.drop i) then some i
      else find_quote_end_go source quote fuel (i + 1)
    else none

/-- Embeds `find_triple_quote_end` from inline.rs: position of the closing
triple quote, honouring backslash escapes. -/
def find_triple_quote_end (source : List Char) (start : Nat) (quote : List Char) : Option Nat :=
  find_quote_end_go source quote (source.length + 2) start

/-- Embeds `find_single_quote_end` from inline.rs: position of the closing
quote character, honouring backslash escapes. -/
def find_single_quote_end (source : List Char) (start : Nat) (quote : Char) : Option Nat :=
  find_quote_end_go source [quote] (source.length + 2) start

/-- Worker for skip_to_newline, structurally recursive on fuel. -/
def skip_to_newline_go (source : List Char) : Nat → Nat → Nat
  | 0, i => i
  | fuel + 1, i =>
    if h : i < source.length then
      if source.get ⟨i, h⟩ ≠ '\n' then skip_to_newline_go source fuel (i + 1) else i
    else i

/-- Skip to the next newline (or the end of the source): the inner comment
loop of find_matching_close_paren. -/
def skip_to_newline (source : List Char) (i : Nat) : Nat :=
  skip_to_newline_go source (source.length + 1) i

/-- Worker for skip_to_newline_before, structurally recursive on fuel. -/
def skip_to_newline_before_go (source : List Char) (stop : Nat) : Nat → Nat → Nat
  | 0, i => i
  | fuel + 1, i =>
    if i < stop ∧ source.getD i ' ' ≠ '\n' then
      skip_to_newline_before_go source stop fuel (i + 1)
    else i

/-- Skip to the next newline before a bound: the inner comment loop of
find_keyword_in_call, which is bounded by the call end rather than by the
source length. -/
def skip_to_newline_before (source : List Char) (stop : Nat) (i : Nat) : Nat :=
  skip_to_newline_before_go source stop (stop + 1) i

/-- Worker for `find_matching_close_paren` from inline.rs: track nesting
depth, skipping string literals (single or triple, both quote kinds, with
backslash escapes) and line comments. Depth is an integer, as in the source.
Fuel bounds the loop; the wrapper passes enough for the scan to reach the
end of the source. -/
def find_matching_close_paren_go (source : List Char) :
    Nat → Nat → Int → Option Nat
  | 0, _, _ => none
  | fuel + 1, i, depth =>
    if h : i < source.length then
      let c := source.get ⟨i, h⟩
      if c = '(' then find_matching_close_paren_go source fuel (i + 1) (depth + 1)
      else if c = ')' then
        if depth - 1 = 0 then some i
        else find_matching_close_paren_go source fuel (i + 1) (depth - 1)
      else if c = '"' then
        if i + 2 < source.length ∧ source.getD (i + 1) ' ' = '"' ∧
            source.getD (i + 2) ' ' = '"' then
          match find_triple_quote_end source (i + 3) ['"', '"', '"'] with
          | some e => find_matching_close_paren_go source fuel (e + 3) depth
          | none => none
        else
          match find_single_quote_end source (i + 1) '"' with
          | some e => find_matching_close_paren_go source fuel (e + 1) depth
          | none => none
      else if c = '\'' then
        if i + 2 < source.length ∧ source.getD (i + 1) ' ' = '\'' ∧
            source.getD (i + 2) ' ' = '\'' then
          match find_triple_quote_end source (i + 3) ['\'', '\'', '\''] with
          | some e => find_matching_close_paren_go source fuel (e + 3) depth
          | none => none
        else
          match find_single_quote_end source (i + 1) '\'' with
          | some e => find_matching_close_paren_go source fuel (e + 1) depth
          | none => none
      else if c = '#' then
        find_matching_close_paren_go source fuel (skip_to_newline source i + 1) depth
      else find_matching_close_paren_go source fuel (i + 1) depth
    else none

/-- Embeds `find_matching_close_paren` from inline.rs. -/
def find_matching_close_paren (source : List Char) (open_pos : Nat) : Option Nat :=
  find_matching_close_paren_go source (source.length + 2) open_pos 0

/-- Worker for `find_keyword_in_call` from inline.rs: scan for a keyword
between start and stop, skipping string literals and comments. Each arm
advances the index itself, as in the source. -/
def find_keyword_in_call_go (source : List Char) (stop : Nat) (keyword : List Char) :
    Nat → Nat → Option Nat
  | 0, _ => none
  | fuel + 1, i =>
    if i < stop then
      let c := source.getD i ' '
      if c = '"' then
        if i + 2 < stop ∧ source.getD (i + 1) ' ' = '"' ∧ source.getD (i + 2) ' ' = '"' then
          match find_triple_quote_end source (i + 3) ['"', '"', '"'] with
          | some p => find_keyword_in_call_go source stop keyword fuel (p + 3)
          | none => none
        else
          match find_single_quote_end source (i + 1) '"' with
          | some p => find_keyword_in_call_go source stop keyword fuel (p + 1)
          | none => none
      else if c = '\'' then
        if i + 2 < stop ∧ source.getD (i + 1) ' ' = '\'' ∧ source.getD (i + 2) ' ' = '\'' then
          match find_triple_quote_end source (i + 3) ['\'', '\'', '\''] with
          | some p => find_keyword_in_call_go source stop keyword fuel (p + 3)
          | none => none
        else
          match find_single_quote_end source (i + 1) '\'' with
          | some p => find_keyword_in_call_go source stop keyword fuel (p + 1)
          | none => none
      else if c = '#' then
        find_keyword_in_call_go source stop keyword fuel (skip_to_newline_before source stop i)
      else if keyword.isPrefixOf (source.drop i) then some i
      else find_keyword_in_call_go source stop keyword fuel (i + 1)
    else none

/-- Embeds `find_keyword_in_call` from inline.rs. -/
def find_keyword_in_call (source : List Char) (start stop : Nat) (keyword : List Char) :
    Option Nat :=
  find_keyword_in_call_go source stop keyword (source.length + stop + 2) start

/-- Strip a prefix (Rust `str::strip_prefix`). -/
def stripPrefixChars (pat l : List Char) : Option (List Char) :=
  if pat.isPrefixOf l then some (l.drop pat.length) else none

/-- Embeds `parse_string_literal` from inline.rs: skip leading whitespace,
then parse a single-, double- or triple-quoted Python string literal,
returning start and end offsets including the quotes. -/
def parse_string_literal (source : List Char) (offset : Nat) : Option (Nat × Nat) :=
  let rest := source.drop offset
  let trimmed_offset := offset + (rest.takeWhile Char.isWhitespace).length
  let rest := rest.dropWhile Char.isWhitespace
  if ['"', '"', '"'].isPrefixOf rest then
    (find_triple_quote_end source (trimmed_offset + 3) ['"', '"', '"']).map
      fun e => (trimmed_offset, e + 3)
  else if ['\'', '\'', '\''].isPrefixOf rest then
    (find_triple_quote_end source (trimmed_offset + 3) ['\'', '\'', '\'']).map
      fun e => (trimmed_offset, e + 3)
  else if ['"'].isPrefixOf rest then
    (find_single_quote_end source (trimmed_offset + 1) '"').map
      fun e => (trimmed_offset, e + 1)
  else if ['\''].isPrefixOf rest then
    (find_single_quote_end source (trimmed_offset + 1) '\'').map
      fun e => (trimmed_offset, e + 1)
  else none

/-- Embeds `containing_function_name` from inline.rs: walk the lines before
the given position backwards and return the name after the nearest def or
async def, up to the first open parenthesis. -/
def containing_function_name (source : List Char) (byte_pos : Nat) : Option String :=
  ((rustLinesChars (source.take byte_pos)).reverse.findSome? fun line =>
    let trimmed := charsTrimLeft line
    match stripPrefixChars "def ".data trimmed with
    | some after_def => some after_def
    | none => stripPrefixChars "async def ".data trimmed).map
    fun after_def => (⟨(splitChars ['('] after_def).headD []⟩ : String)

/-- Byte offset of the start of the (1-based) hint line, as computed by
find_inline_argument: the lengths of all earlier lines plus one newline each. -/
def line_byte_offset (lines : List (List Char)) (start_line_idx : Nat) : Nat :=
  ((lines.take start_line_idx).map (fun l => l.length + 1)).sum

/-- Loop of `find_inline_argument` from inline.rs: find the next snapshot
call opener, match its close parenthesis, skip the call when it sits in a
function other than the expected one, and otherwise locate the inline=
argument literal inside the call bounds. Fuel bounds the loop; the search
offset strictly increases on every repeat. -/
def find_inline_argument_loop (source : List Char) (indent : Nat)
    (function_name : Option String) : Nat → Nat → Option InlineLocation
  | 0, _ => none
  | fuel + 1, search_offset =>
    match find_snapshot_call (source.drop search_offset) with
    | none => none
    | some (call_pos, call_pattern) =>
      let abs_call_start := search_offset + call_pos
      let abs_open_paren := abs_call_start + call_pattern.length - 1
      match find_matching_close_paren source abs_open_paren with
      | none => none
      | some call_end =>
        let wrong_function :=
          match function_name with
          | some expected =>
            match containing_function_name source abs_call_start with
            | some actual => actual != expected
            | none => false
          | none => false
        if wrong_function then
          if source.length ≤ call_end + 1 then none
          else find_inline_argument_loop source indent function_name fuel (call_end + 1)
        else
          match find_keyword_in_call source abs_open_paren call_end "inline=".data with
          | none => none
          | some abs_inline_pos =>
            let after_eq := abs_inline_pos + "inline=".length
            if source.length ≤ after_eq then none
            else
              match parse_string_literal source after_eq with
              | none => none
              | some (literal_start, literal_end) =>
                some { start := literal_start, stop := literal_end, indent := indent }

/-- Embeds `find_inline_argument` from inline.rs. -/
def find_inline_argument (source : String) (line_number : Nat)
    (function_name : Option String) : Option InlineLocation :=
  let chars := source.data
  let lines := rustLinesChars chars
  match line_number with
  | 0 => none
  | start_line_idx + 1 =>
    if lines.length ≤ start_line_idx then none
    else
      let offset := line_byte_offset lines start_line_idx
      let indent := ((lines.getD start_line_idx []).takeWhile Char.isWhitespace).length
      find_inline_argument_loop chars indent function_name (chars.length + 2) offset

/-- Embeds `apply_edit` from inline.rs: replace a byte range. -/
def apply_edit (source : List Char) (start stop : Nat) (replacement : List Char) : List Char :=
  source.take start ++ replacement ++ source.drop stop

/-- Embeds `rewrite_inline_snapshot` from inline.rs, with the file read and
write modelled as the input and output strings: find the inline argument,
generate the replacement literal, splice it over the old literal range. -/
def rewrite_inline_snapshot (source : String) (line_number : Nat) (new_value : String)
    (function_name : Option String) : Option String :=
  (find_inline_argument source line_number function_name).map fun location =>
    let new_literal := generate_inline_literal new_value location.indent
    ⟨apply_edit source.data location.start location.stop new_literal.data⟩

/-! ## Snapshot storage paths (crates/karva_snapshot/src/storage.rs) -/

/-- Last path component, mirroring `Utf8Path::file_name` for the simple
relative paths the snapshot code builds. -/
def fileName (p : String) : Option String :=
  if p.isEmpty then none
  else ((splitChars ['/'] p.data).getLast?).map fun l => (⟨l⟩ : String)

/-- Stem of the last path component, mirroring `Utf8Path::file_stem`:
the part of the file name before its last dot (a leading dot alone does not
count as an extension separator). -/
def fileStem (p : String) : Option String :=
  (fileName p).map fun n =>
    match splitChars ['.'] n.data with
    | [] => n
    | [_] => n
    | [] :: [_] => n
    | parts => ⟨intercalateChars ['.'] parts.dropLast⟩

/-- Parent directory, mirroring `Utf8Path::parent` on relative paths. -/
def parentPath (p : String) : Option String :=
  if p.isEmpty then none
  else match splitChars ['/'] p.data with
    | [_] => some ""
    | parts => some ⟨intercalateChars ['/'] parts.dropLast⟩

/-- Path join, mirroring `Utf8Path::join` for relative components. -/
def pathJoin (a b : String) : String :=
  if a.isEmpty then b else a ++ "/" ++ b

/-- Embeds `snapshot_dir` from storage.rs. -/
def snapshot_dir (test_file : String) : String :=
  match parentPath test_file with
  | some parent => pathJoin parent "snapshots"
  | none => "snapshots"

/-- Embeds `snapshot_path` from storage.rs. -/
def snapshot_path (test_file module_name snapshot_name : String) : String :=
  pathJoin (snapshot_dir test_file) (module_name ++ "__" ++ snapshot_name ++ ".snap")

/-! ## Snapshot file format (crates/karva_snapshot/src/format.rs interface) -/

/-- Metadata header of a snapshot file, as used by snapshot.rs. -/
structure SnapshotMetadata where
  source : Option String
  inline_source : Option String
  inline_line : Option Nat
deriving DecidableEq, Repr

/-- Snapshot file: metadata plus content. -/
structure SnapshotFile where
  metadata : SnapshotMetadata
  content : String
deriving DecidableEq, Repr

/-! ## Snapshot assertion API (crates/karva_test_semantic/src/extensions/functions/snapshot.rs) -/

/-- Thread-local snapshot context installed by the runner before each test. -/
structure SnapshotContext where
  test_file : String
  test_name : String
  counter : Nat
deriving DecidableEq, Repr

/-- One frame of the active `snapshot_settings` stack. -/
structure ActiveSettings where
  filters : List (String × String)
  allow_duplicates : Bool
deriving DecidableEq, Repr

/-- Thread-local state read and written by the snapshot API:
the optional per-test context and the settings stack. -/
structure SnapState where
  ctx : Option SnapshotContext
  settingsStack : List ActiveSettings
deriving DecidableEq, Repr

/-- Errors raised by the snapshot API, by kind (the Rust code raises
PyTypeError, PyRuntimeError or SnapshotMismatchError with these messages). -/
inductive SnapError where
  /-- TypeError: assert_snapshot() cannot use both the inline and name arguments. -/
  | bothInlineAndName
  /-- RuntimeError: assert_snapshot() called outside of a karva test context. -/
  | outsideContext
  /-- TypeError: multiple unnamed snapshots in one test. -/
  | tooManyUnnamed
  /-- RuntimeError: could not determine caller source info for inline snapshot. -/
  | noCallerInfo
  /-- SnapshotMismatchError with a diff between the old and new content. -/
  | mismatch (oldContent newContent : String)
  /-- SnapshotMismatchError: new snapshot, pending file written. -/
  | newSnapshot
  /-- SnapshotMismatchError with a diff for an inline snapshot. -/
  | inlineMismatch (expected actual : String)
  /-- SnapshotMismatchError: new inline snapshot, pending file written. -/
  | newInlineSnapshot
deriving DecidableEq, Repr

/-- Filesystem write effects the snapshot API can perform. -/
inductive FsWrite where
  /-- write_snapshot: write a committed .snap file. -/
  | writeSnap (path : String) (snap : SnapshotFile)
  /-- write_pending_snapshot: write a pending .snap.new file beside the path. -/
  | writePending (snapPath : String) (snap : SnapshotFile)
  /-- rewrite_inline_snapshot: splice a new literal into a source file. -/
  | rewriteInline (sourceFile : String) (line : Nat) (value : String)
deriving DecidableEq, Repr

/-- Embeds `is_allow_duplicates_active`: any settings frame enables it. -/
def is_allow_duplicates_active (stack : List ActiveSettings) : Bool :=
  stack.any (·.allow_duplicates)

/-- Embeds `set_snapshot_context`: called by the runner before each test,
installing a fresh context with counter 0. -/
def set_snapshot_context (test_file test_name : String) (st : SnapState) : SnapState :=
  { st with ctx := some { test_file := test_file, test_name := test_name, counter := 0 } }

/-- Splits a test name at its first open parenthesis into base name and
parameter suffix, mirroring the `test_name.find('(')` logic shared by
`compute_snapshot_name` and `compute_named_snapshot`. -/
def splitAtParams (test_name : String) : String × String :=
  match test_name.toList.findIdx? (· = '(') with
  | some i => (⟨test_name.toList.take i⟩, ⟨test_name.toList.drop i⟩)
  | none => (test_name, "")

/-- Embeds `compute_snapshot_name` from snapshot.rs. -/
def compute_snapshot_name (test_name : String) (counter : Nat) (allow_duplicates : Bool) : String :=
  let (base_name, param_suffix) := splitAtParams test_name
  if allow_duplicates then base_name ++ "-" ++ toString counter ++ param_suffix
  else base_name ++ param_suffix

/-- Embeds `compute_named_snapshot` from snapshot.rs. -/
def compute_named_snapshot (test_name custom_name : String) : String :=
  let (base_name, param_suffix) := splitAtParams test_name
  base_name ++ "--" ++ custom_name ++ param_suffix

/-- Embeds `handle_inline_snapshot` from snapshot.rs. The caller frame lookup
is an input (`callerInfo`); filesystem writes are returned as events. -/
def handle_inline_snapshot (callerInfo : Option (String × Nat)) (actual inline_value : String)
    (test_file test_name : String) (update_mode : Bool) :
    Except SnapError Unit × List FsWrite :=
  match callerInfo with
  | none => (.error .noCallerInfo, [])
  | some (source_file, lineno) =>
    let expected := dedent inline_value
    let is_empty := inline_value.isEmpty
    let matched := !is_empty && (strTrimRight expected == strTrimRight actual)
    if matched then (.ok (), [])
    else if update_mode then (.ok (), [.rewriteInline source_file lineno actual])
    else
      let module_name := (fileStem test_file).getD "unknown"
      let snapshot_name := test_name ++ "_inline_" ++ toString lineno
      let snap_path := snapshot_path test_file module_name snapshot_name
      let relative_test_file := (fileName test_file).getD test_file
      let pending_snapshot : SnapshotFile :=
        { metadata :=
            { source := some (relative_test_file ++ ":" ++ toString lineno ++ "::" ++ test_name)
              inline_source := some source_file
              inline_line := some lineno }
          content := actual }
      let writes := [FsWrite.writePending snap_path pending_snapshot]
      if is_empty then (.error .newInlineSnapshot, writes)
      else (.error (.inlineMismatch expected actual), writes)

/-- New snapshot file built by the file-based branch of assert_snapshot_impl:
source metadata plus the serialized content. -/
def file_snapshot_new (callerInfo : Option (String × Nat))
    (serialized test_file test_name : String) : SnapshotFile :=
  let relative_test_file := (fileName test_file).getD test_file
  let source :=
    match callerInfo with
    | some (_, lineno) => relative_test_file ++ ":" ++ toString lineno ++ "::" ++ test_name
    | none => relative_test_file ++ "::" ++ test_name
  { metadata := { source := some source, inline_source := none, inline_line := none }
    content := serialized }

/-- Path of the .snap file targeted by the file-based branch of
assert_snapshot_impl, including the :: to __ sanitization. -/
def file_snapshot_target (test_file snapshot_name : String) : String :=
  snapshot_path test_file ((fileStem test_file).getD "unknown")
    (strReplace snapshot_name "::" "__")

/-- Embeds the file-based tail of `assert_snapshot_impl` (after the snapshot
name has been computed): build the path and metadata, compare against the
existing .snap read from the filesystem, and write or raise accordingly. -/
def file_snapshot_step (fs : String → Option SnapshotFile) (update_mode : Bool)
    (callerInfo : Option (String × Nat)) (serialized : String)
    (test_file test_name snapshot_name : String) :
    Except SnapError Unit × List FsWrite :=
  let snap_path := file_snapshot_target test_file snapshot_name
  let new_snapshot := file_snapshot_new callerInfo serialized test_file test_name
  match fs snap_path with
  | some existing =>
    if strTrimRight existing.content = strTrimRight serialized then (.ok (), [])
    else if update_mode then (.ok (), [.writeSnap snap_path new_snapshot])
    else (.error (.mismatch existing.content serialized),
          [.writePending snap_path new_snapshot])
  | none =>
    if update_mode then (.ok (), [.writeSnap snap_path new_snapshot])
    else (.error .newSnapshot, [.writePending snap_path new_snapshot])

/-- Embeds `assert_snapshot_impl` from snapshot.rs. Inputs: the filesystem
read function, the update-mode flag (KARVA_SNAPSHOT_UPDATE), the caller frame
info, the serialized (already filtered) value, the inline and name keyword
arguments, and the thread-local state. Returns the result, the new
thread-local state, and the filesystem writes performed. -/
def assert_snapshot_impl (fs : String → Option SnapshotFile) (update_mode : Bool)
    (callerInfo : Option (String × Nat)) (serialized : String)
    (inline : Option String) (name : Option String) (st : SnapState) :
    Except SnapError Unit × SnapState × List FsWrite :=
  if inline.isSome && name.isSome then (.error .bothInlineAndName, st, [])
  else match st.ctx with
  | none => (.error .outsideContext, st, [])
  | some c =>
    match inline with
    | some inline_value =>
      let (r, ws) := handle_inline_snapshot callerInfo serialized inline_value
        c.test_file c.test_name update_mode
      (r, st, ws)
    | none =>
      match name with
      | some custom_name =>
        let snapshot_name := compute_named_snapshot c.test_name custom_name
        let (r, ws) := file_snapshot_step fs update_mode callerInfo serialized
          c.test_file c.test_name snapshot_name
        (r, st, ws)
      | none =>
        let counter := c.counter
        let st' : SnapState := { st with ctx := some { c with counter := c.counter + 1 } }
        let allow_duplicates := is_allow_duplicates_active st.settingsStack
        if counter > 0 && !allow_duplicates then (.error .tooManyUnnamed, st', [])
        else
          let snapshot_name := compute_snapshot_name c.test_name counter allow_duplicates
          let (r, ws) := file_snapshot_step fs update_mode callerInfo serialized
            c.test_file c.test_name snapshot_name
          (r, st', ws)

/-! ## Test result classification (crates/karva_test_semantic/src/runner/package_runner.rs) -/

/-- Modelled from the spec: the individual outcome enum is declared in the
karva_diagnostic crate, which is not under src. The spec lists five individual
outcomes: Passed, Failed, Skipped (with optional reason), ExpectedFailure and
UnexpectedSuccess. The runner code under src only ever registers Passed,
Failed and Skipped. -/
inductive IndividualTestResultKind where
  | Passed
  | Failed
  | Skipped (reason : Option String)
  | ExpectedFailure
  | UnexpectedSuccess
deriving DecidableEq, Repr

/-- Modelled guest error, as observed by classify_test_result: whether it is
the distinguished skip-sentinel exception (is_skip_exception), its extracted
skip reason (extract_skip_reason), and the missing-argument names parsed from
its message (missing_arguments_from_error). Those three helpers are declared
outside src; here they are fields of the abstract error. -/
structure PyErr where
  isSkipException : Bool
  skipReason : Option String
  missingArgs : List String
deriving DecidableEq, Repr

/-- Diagnostics classify_test_result can report alongside registering a result. -/
inductive ClassifyDiagnostic where
  | passOnExpectFailure
  | testFailure
  | missingFixtures
deriving DecidableEq, Repr

/-- Embeds `PackageRunner::classify_test_result`: maps the raw test call
result and the expect_fail flag to the registered result kind and the
diagnostics reported. -/
def classify_test_result (test_result : Except PyErr Unit) (expect_fail : Bool) :
    IndividualTestResultKind × List ClassifyDiagnostic :=
  match test_result with
  | .ok _ =>
    if expect_fail then (.Failed, [.passOnExpectFailure])
    else (.Passed, [])
  | .error err =>
    if err.isSkipException then (.Skipped err.skipReason, [])
    else if expect_fail then (.Passed, [])
    else if err.missingArgs.isEmpty then (.Failed, [.testFailure])
    else (.Failed, [.missingFixtures])

/-! ## Finalizer teardown (crates/karva_test_semantic/src/extensions/fixtures/finalizer.rs) -/

/-- Modelled from the spec: fixture scopes (the FixtureScope declaration lives
in the fixtures module root, not under src). Scope is the lifetime over which
a fixture value is cached: function, module, package or session. -/
inductive FixtureScope where
  | Function
  | Module
  | Package
  | Session
deriving DecidableEq, Repr

/-- Outcome of advancing a sync generator once more during teardown, as
observed by Finalizer::run_sync_teardown: the stored object may fail to cast
to an iterator, the iterator may be exhausted (next returns None), yield a
second value, or raise. -/
inductive SyncNextOutcome where
  | notIterator
  | exhausted
  | yielded
  | raised (message : String)
deriving DecidableEq, Repr

/-- Outcome of advancing an async generator once more during teardown, as
observed by Finalizer::run_async_teardown: the anext call itself may fail,
the awaited step may yield a second value, raise StopAsyncIteration
(exhaustion sentinel), or raise some other error. -/
inductive AsyncNextOutcome where
  | anextCallFailed
  | yielded
  | stopAsyncIteration
  | raised (message : String)
deriving DecidableEq, Repr

/-- Embeds `Finalizer::run_sync_teardown`: returns the diagnostic reason, if
any, for the given generator-step outcome. -/
def run_sync_teardown (outcome : SyncNextOutcome) : Option String :=
  match outcome with
  | .notIterator => none
  | .exhausted => none
  | .yielded => some "Fixture had more than one yield statement"
  | .raised message => some ("Failed to reset fixture: " ++ message)

/-- Embeds `Finalizer::run_async_teardown`: returns the diagnostic reason, if
any, for the given async-generator-step outcome. -/
def run_async_teardown (outcome : AsyncNextOutcome) : Option String :=
  match outcome with
  | .anextCallFailed => none
  | .yielded => some "Fixture had more than one yield statement"
  | .stopAsyncIteration => none
  | .raised message => some ("Failed to reset fixture: " ++ message)

/-- Teardown handle for a generator fixture, mirroring the Finalizer struct:
whether it wraps an async generator, its scope, and (for user-defined
fixtures) the owning fixture name used for diagnostics. The guest generator
itself is modelled by the step outcome supplied to finalizer_run. -/
structure Finalizer where
  is_async : Bool
  scope : FixtureScope
  fixture_name : Option String
deriving DecidableEq, Repr

/-- Environment describing how each guest generator behaves when advanced
once more at teardown, keyed by the owning fixture name. -/
structure TeardownEnv where
  syncStep : Option String → SyncNextOutcome
  asyncStep : Option String → AsyncNextOutcome

/-- Embeds `Finalizer::run`: advance the generator once more, and if the
outcome warrants it and the finalizer carries a fixture definition, report an
invalid-fixture-finalizer diagnostic. Always returns (total function), with
the reported diagnostic, if any, as the result. -/
def finalizer_run (env : TeardownEnv) (fin : Finalizer) : Option String :=
  let invalid_finalizer_reason :=
    if fin.is_async then run_async_teardown (env.asyncStep fin.fixture_name)
    else run_sync_teardown (env.syncStep fin.fixture_name)
  match invalid_finalizer_reason, fin.fixture_name with
  | some reason, some _ => some reason
  | _, _ => none

/-! ## Fixture runner (crates/karva_test_semantic/src/runner/package_runner.rs)

Guest calls are modelled by an environment keyed by fixture name; the state
threads the fixture value cache and the pending finalizer cache; guest
invocations and finalizer runs are recorded as events. -/

/-- Fixture tree mirroring NormalizedFixture: UserDefined carries name,
scope, is_generator, the async flag of its definition, and resolved
dependencies; BuiltIn carries name, scope, whether a finalizer callable is
attached, and dependencies. -/
inductive Fixture where
  | userDefined (name : String) (scope : FixtureScope) (is_generator : Bool)
      (is_async : Bool) (deps : List Fixture)
  | builtIn (name : String) (scope : FixtureScope) (has_finalizer : Bool)
      (deps : List Fixture)

/-- Mirrors NormalizedFixture::function_name. -/
def Fixture.function_name : Fixture → String
  | .userDefined name _ _ _ _ => name
  | .builtIn name _ _ _ => name

/-- Mirrors NormalizedFixture::scope. -/
def Fixture.scope : Fixture → FixtureScope
  | .userDefined _ scope _ _ _ => scope
  | .builtIn _ scope _ _ => scope

/-- Mirrors NormalizedFixture::dependencies. -/
def Fixture.dependencies : Fixture → List Fixture
  | .userDefined _ _ _ _ deps => deps
  | .builtIn _ _ _ deps => deps

/-- Mirrors NormalizedFixture::is_user_defined. -/
def Fixture.is_user_defined : Fixture → Bool
  | .userDefined _ _ _ _ _ => true
  | .builtIn _ _ _ _ => false

/-- Guest-interpreter behaviour, keyed by fixture or test name: the result
of calling a callable, whether a sync generator return value casts to an
iterator, the first advance of sync and async generators, built-in values
and the built-in finalizer-adapter first step, and the test body result.
Errors are message strings of the modelled PyErr. -/
structure GuestEnv where
  callResult : String → Except String Nat
  castIteratorOk : String → Bool
  firstYield : String → Option (Except String Nat)
  asyncFirstYield : String → Except String Nat
  builtinValue : String → Nat
  builtinFirstYield : String → Option Nat
  testResult : String → Except PyErr Unit

/-- Mirrors NormalizedFixture::call: a built-in returns its stored value and
never fails; a user-defined fixture calls its guest callable (for async
non-generators the coroutine completion is folded into the environment's
call result). -/
def fixture_call (env : GuestEnv) : Fixture → Except String Nat
  | .builtIn name _ _ _ => .ok (env.builtinValue name)
  | .userDefined name _ _ _ _ => env.callResult name

/-- Embeds `get_value_and_finalizer` from package_runner.rs: an async
generator is advanced through anext and becomes an async finalizer; a sync
generator whose return value casts to an iterator is advanced once (no
yielded value is an error) and becomes a finalizer; a built-in with a
finalizer callable whose adapter yields becomes a finalizer; in every other
case the raw call result is final with no finalizer. -/
def get_value_and_finalizer (env : GuestEnv) (f : Fixture)
    (fixture_call_result : Nat) : Except String (Nat × Option Finalizer) :=
  match f with
  | .userDefined name scope true true _ =>
    match env.asyncFirstYield name with
    | .ok value =>
      .ok (value, some { is_async := true, scope := scope, fixture_name := some name })
    | .error e => .error e
  | .userDefined name scope true false _ =>
    if env.castIteratorOk name then
      match env.firstYield name with
      | some (.ok value) =>
        .ok (value, some { is_async := false, scope := scope, fixture_name := some name })
      | some (.error e) => .error e
      | none => .error "Generator fixture yielded no value"
    else .ok (fixture_call_result, none)
  | .userDefined _ _ false _ _ => .ok (fixture_call_result, none)
  | .builtIn name scope has_finalizer _ =>
    if has_finalizer then
      match env.builtinFirstYield name with
      | some value =>
        .ok (value, some { is_async := false, scope := scope, fixture_name := none })
      | none => .ok (fixture_call_result, none)
    else .ok (fixture_call_result, none)

/-- Runner state: the fixture value cache keyed by (name, scope) and the
pending finalizer cache. Both cache types are declared in files not under
src; they are modelled from the spec ("A mapping from (qualified_name,
scope) to stored value handle. A parallel mapping of scope to ordered list
of pending Finalizers. Insertion order into the finalizer list is the order
in which setup completed; teardown traverses in reverse."). -/
structure RunnerState where
  fixture_cache : List ((String × FixtureScope) × Nat)
  finalizer_cache : List Finalizer

/-- Modelled from the spec: FixtureCache::get looks a value up by
(name, scope). -/
def cacheGet (cache : List ((String × FixtureScope) × Nat))
    (key : String × FixtureScope) : Option Nat :=
  match cache with
  | [] => none
  | (k, v) :: rest => if k = key then some v else cacheGet rest key

/-- Modelled from the spec: FixtureCache::clear_fixtures removes the
entries of one scope. -/
def cacheClearScope (cache : List ((String × FixtureScope) × Nat))
    (scope : FixtureScope) : List ((String × FixtureScope) × Nat) :=
  cache.filter (fun kv => kv.1.2 ≠ scope)

/-- Events observable during a run: a guest fixture callable invocation, a
finalizer run, a test body invocation. -/
inductive RunEvent where
  | invokeFixture (name : String) (scope : FixtureScope)
  | runFinalizer (fin : Finalizer)
  | invokeTest (name : String)
deriving DecidableEq, Repr

/-- Tail of run_fixture after the dependency loop: invoke the callable,
post-process with get_value_and_finalizer, cache the value for user-defined
fixtures, and return a Function-scope finalizer to the caller while
appending higher-scope finalizers to the finalizer cache. -/
def run_fixture_post (env : GuestEnv) (f : Fixture)
    (depsResult : Except String Unit × RunnerState × List RunEvent) :
    Except String (Nat × Option Finalizer) × RunnerState × List RunEvent :=
  match depsResult with
  | (.error e, st1, tr1) => (.error e, st1, tr1)
  | (.ok _, st1, tr1) =>
    let tr2 := tr1 ++ [RunEvent.invokeFixture f.function_name f.scope]
    match fixture_call env f with
    | .error e => (.error e, st1, tr2)
    | .ok fixture_call_result =>
      match get_value_and_finalizer env f fixture_call_result with
      | .error e => (.error e, st1, tr2)
      | .ok (final_result, finalizer) =>
        let st2 :=
          if f.is_user_defined then
            { st1 with fixture_cache :=
                ((f.function_name, f.scope), final_result) :: st1.fixture_cache }
          else st1
        match finalizer with
        | none => (.ok (final_result, none), st2, tr2)
        | some fin =>
          if fin.scope = FixtureScope.Function then
            (.ok (final_result, some fin), st2, tr2)
          else
            (.ok (final_result, none),
             { st2 with finalizer_cache := st2.finalizer_cache ++ [fin] }, tr2)

mutual
/-- Embeds `PackageRunner::run_fixture`: return the cached value with no
finalizer on a cache hit; otherwise run the dependencies (their finalizers
go straight to the finalizer cache) and finish with run_fixture_post. -/
def run_fixture (env : GuestEnv) (f : Fixture) (st : RunnerState) :
    Except String (Nat × Option Finalizer) × RunnerState × List RunEvent :=
  match cacheGet st.fixture_cache (f.function_name, f.scope) with
  | some cached => (.ok (cached, none), st, [])
  | none =>
    match f with
    | .userDefined name scope is_generator is_async deps =>
      run_fixture_post env (.userDefined name scope is_generator is_async deps)
        (run_fixture_deps env deps st)
    | .builtIn name scope has_finalizer deps =>
      run_fixture_post env (.builtIn name scope has_finalizer deps)
        (run_fixture_deps env deps st)

/-- Embeds the dependency loop of run_fixture: run each dependency in
order, adding any returned finalizer to the finalizer cache; the first
error aborts the fixture (state and events so far are kept). -/
def run_fixture_deps (env : GuestEnv) (fs : List Fixture) (st : RunnerState) :
    Except String Unit × RunnerState × List RunEvent :=
  match fs with
  | [] => (.ok (), st, [])
  | dep :: rest =>
    match run_fixture env dep st with
    | (.error e, st1, tr1) => (.error e, st1, tr1)
    | (.ok (_, fin), st1, tr1) =>
      let st2 :=
        match fin with
        | some fin => { st1 with finalizer_cache := st1.finalizer_cache ++ [fin] }
        | none => st1
      match run_fixture_deps env rest st2 with
      | (r, st3, tr3) => (r, st3, tr1 ++ tr3)
end

/-- Modelled from the spec: FinalizerCache::run_and_clear_scope drains the
given scope's pending finalizers in reverse insertion order and clears
them, retaining the other scopes; each drained finalizer run is an event. -/
def run_and_clear_scope (fins : List Finalizer) (scope : FixtureScope) :
    List Finalizer × List RunEvent :=
  (fins.filter (fun f => f.scope ≠ scope),
   ((fins.filter (fun f => f.scope = scope)).reverse).map
     (fun f => RunEvent.runFinalizer f))

/-- Embeds `PackageRunner::clean_up_scope`: run and clear the scope's
finalizers, then clear the scope's fixture value cache. -/
def clean_up_scope (st : RunnerState) (scope : FixtureScope) :
    RunnerState × List RunEvent :=
  let (remaining, events) := run_and_clear_scope st.finalizer_cache scope
  ({ fixture_cache := cacheClearScope st.fixture_cache scope,
     finalizer_cache := remaining }, events)

/-- Embeds `PackageRunner::run_fixtures` (the auto-use helper): run each
fixture, appending any returned finalizer to the finalizer cache, and
collect the errors. -/
def run_fixtures (env : GuestEnv) (fs : List Fixture) (st : RunnerState) :
    RunnerState × List RunEvent × List String :=
  match fs with
  | [] => (st, [], [])
  | f :: rest =>
    match run_fixture env f st with
    | (.ok (_, fin), st1, tr1) =>
      let st2 :=
        match fin with
        | some fin => { st1 with finalizer_cache := st1.finalizer_cache ++ [fin] }
        | none => st1
      let (st3, tr3, errs) := run_fixtures env rest st2
      (st3, tr1 ++ tr3, errs)
    | (.error e, st1, tr1) =>
      let (st3, tr3, errs) := run_fixtures env rest st1
      (st3, tr1 ++ tr3, e :: errs)

/-- Embeds the direct-dependency loop of `setup_test_fixtures`: returned
finalizers are collected, in order, as the test's own finalizers. -/
def run_test_deps (env : GuestEnv) (fs : List Fixture) (st : RunnerState) :
    RunnerState × List RunEvent × List Finalizer × List String :=
  match fs with
  | [] => (st, [], [], [])
  | f :: rest =>
    match run_fixture env f st with
    | (.ok (_, fin), st1, tr1) =>
      let (st3, tr3, fins, errs) := run_test_deps env rest st1
      (st3, tr1 ++ tr3,
       (match fin with | some fin => fin :: fins | none => fins), errs)
    | (.error e, st1, tr1) =>
      let (st3, tr3, fins, errs) := run_test_deps env rest st1
      (st3, tr1 ++ tr3, fins, e :: errs)

/-- Embeds `PackageRunner::setup_test_fixtures`: run the use-fixtures, then
the direct fixture dependencies (whose returned finalizers become the
test's finalizer list), then the auto-use fixtures. -/
def setup_test_fixtures (env : GuestEnv)
    (fixture_dependencies use_fixture_dependencies auto_use_fixtures : List Fixture)
    (st : RunnerState) :
    RunnerState × List RunEvent × List Finalizer × List String :=
  let (st1, tr1, errs1) := run_fixtures env use_fixture_dependencies st
  let (st2, tr2, test_finalizers, errs2) := run_test_deps env fixture_dependencies st1
  let (st3, tr3, errs3) := run_fixtures env auto_use_fixtures st2
  (st3, tr1 ++ tr2 ++ tr3, test_finalizers, errs1 ++ errs2 ++ errs3)

/-- Test variant: the unit of execution. should_skip abstracts the outcome
of should_skip_variant (tag and name filters and the skip tag), and
expect_fail the resolved expect_fail tag. -/
structure TestVariant where
  name : String
  fixture_dependencies : List Fixture
  use_fixture_dependencies : List Fixture
  auto_use_fixtures : List Fixture
  should_skip : Bool
  expect_fail : Bool

/-- Modelled from the spec: Context::register_test_case_result records a
result and returns the flag driving fail-fast, which trips on failures, so
the flag is false exactly for Failed. -/
def register_result_flag (k : IndividualTestResultKind) : Bool :=
  match k with
  | .Failed => false
  | _ => true

/-- Observable behaviour of the test invocation plus the retry loop of
execute_test_variant under the deterministic guest environment: a passing
test runs once; a failing test runs once plus one re-invocation per
remaining retry. -/
def run_test_with_retry (env : GuestEnv) (name : String) (retry : Nat) :
    Except PyErr Unit × List RunEvent :=
  match env.testResult name with
  | .ok _ => (.ok (), [.invokeTest name])
  | .error e => (.error e, List.replicate (1 + retry) (.invokeTest name))

/-- Embeds `PackageRunner::execute_test_variant`: a skipped variant is
registered without touching fixtures; otherwise set up the fixtures, run
the test with retries, classify the result, run the collected function-
scope finalizers in reverse order, and clean up the Function scope. -/
def execute_test_variant (env : GuestEnv) (retry : Nat) (v : TestVariant)
    (st : RunnerState) : Bool × RunnerState × List RunEvent :=
  if v.should_skip then
    (register_result_flag (.Skipped none), st, [])
  else
    let (st1, tr_setup, test_finalizers, _fixture_call_errors) :=
      setup_test_fixtures env v.fixture_dependencies v.use_fixture_dependencies
        v.auto_use_fixtures st
    let (test_result, tr_test) := run_test_with_retry env v.name retry
    let (kind, _diags) := classify_test_result test_result v.expect_fail
    let passed := register_result_flag kind
    let tr_fin := (test_finalizers.reverse).map (fun fin => RunEvent.runFinalizer fin)
    let (st2, tr_clean) := clean_up_scope st1 FixtureScope.Function
    (passed, st2, tr_setup ++ tr_test ++ tr_fin ++ tr_clean)

/-- Embeds the variant loop of execute_module: run each variant, breaking
on failure when fail-fast is on. -/
def execute_variants (env : GuestEnv) (retry : Nat) (fail_fast : Bool)
    (vs : List TestVariant) (st : RunnerState) (passed : Bool) :
    Bool × RunnerState × List RunEvent :=
  match vs with
  | [] => (passed, st, [])
  | v :: rest =>
    let (p, st1, tr1) := execute_test_variant env retry v st
    let passed2 := passed && p
    if fail_fast && !passed2 then (passed2, st1, tr1)
    else
      let (p3, st3, tr3) := execute_variants env retry fail_fast rest st1 passed2
      (p3, st3, tr1 ++ tr3)

/-- Embeds the test-function loop of execute_module: each test function's
variants, breaking on failure when fail-fast is on. -/
def execute_tests (env : GuestEnv) (retry : Nat) (fail_fast : Bool)
    (tests : List (List TestVariant)) (st : RunnerState) (passed : Bool) :
    Bool × RunnerState × List RunEvent :=
  match tests with
  | [] => (passed, st, [])
  | vs :: rest =>
    let (p, st1, tr1) := execute_variants env retry fail_fast vs st passed
    if fail_fast && !p then (p, st1, tr1)
    else
      let (p3, st3, tr3) := execute_tests env retry fail_fast rest st1 p
      (p3, st3, tr1 ++ tr3)

/-- Discovered module, reduced to what execute_module consumes: its
module-scope auto-use fixtures and its test functions' variants. -/
structure ModuleSpec where
  auto_use : List Fixture
  tests : List (List TestVariant)

/-- Embeds `PackageRunner::execute_module`: run the module auto-use
fixtures, execute all test variants (with fail-fast breaks), then clean up
the Module scope. -/
def execute_module (env : GuestEnv) (retry : Nat) (fail_fast : Bool)
    (m : ModuleSpec) (st : RunnerState) : Bool × RunnerState × List RunEvent :=
  let (st1, tr1, _errs) := run_fixtures env m.auto_use st
  let (passed, st2, tr2) := execute_tests env retry fail_fast m.tests st1 true
  let (st3, tr3) := clean_up_scope st2 FixtureScope.Module
  (passed, st3, tr1 ++ tr2 ++ tr3)

/-- Span of direct run_fixture calls, used to state memoization across the
active span of a scope: the calls tests in one container make for their
fixtures, with no intervening cleanup of that scope. -/
def run_fixture_seq (env : GuestEnv) (fs : List Fixture) (st : RunnerState) :
    RunnerState × List RunEvent :=
  match fs with
  | [] => (st, [])
  | f :: rest =>
    let (_, st1, tr1) := run_fixture env f st
    let (st2, tr2) := run_fixture_seq env rest st1
    (st2, tr1 ++ tr2)

/-- Number of invocations of the fixture callable with the given cache key
in a trace. -/
def countInvoke (k : String × FixtureScope) (tr : List RunEvent) : Nat :=
  tr.count (RunEvent.invokeFixture k.1 k.2)

mutual
/-- Whether a fixture with the given cache key occurs in the tree. -/
def mentions_key (k : String × FixtureScope) : Fixture → Bool
  | .userDefined name scope _ _ deps =>
    (name = k.1 && scope = k.2) || mentions_key_list k deps
  | .builtIn name scope _ deps =>
    (name = k.1 && scope = k.2) || mentions_key_list k deps

/-- Whether a fixture with the given cache key occurs in any of the trees. -/
def mentions_key_list (k : String × FixtureScope) : List Fixture → Bool
  | [] => false
  | f :: rest => mentions_key k f || mentions_key_list k rest
end

mutual
/-- Hypothesis of the memoization theorem, about one cache key within a
fixture tree: every node carrying the key is user-defined, does not itself
depend (transitively) on the key — the resolver's cycle rejection
guarantees this — and its own callable and post-processing succeed (its
dependencies may still fail, in which case it is not invoked at all). -/
def fixture_key_ok (env : GuestEnv) (k : String × FixtureScope) : Fixture → Prop
  | .userDefined name scope is_generator is_async deps =>
    ((name = k.1 ∧ scope = k.2) →
      mentions_key_list k deps = false ∧
      ∃ c, env.callResult name = Except.ok c ∧
        ∃ value fin,
          get_value_and_finalizer env
            (.userDefined name scope is_generator is_async deps) c
            = Except.ok (value, fin)) ∧
    fixture_key_ok_list env k deps
  | .builtIn name scope _ deps =>
    ¬(name = k.1 ∧ scope = k.2) ∧ fixture_key_ok_list env k deps

/-- Key admissibility for a list of fixture trees. -/
def fixture_key_ok_list (env : GuestEnv) (k : String × FixtureScope) :
    List Fixture → Prop
  | [] => True
  | f :: rest => fixture_key_ok env k f ∧ fixture_key_ok_list env k rest
end

/-- One step of the memoization argument, relating a fixture cache before
and after an operation and the operation's trace: entries for the key are
preserved, a cached key is never re-invoked, the key is invoked at most
once, and an invocation leaves the key cached. -/
def MemoStep (k : String × FixtureScope)
    (fc0 fc1 : List ((String × FixtureScope) × Nat)) (tr : List RunEvent) : Prop :=
  (∀ v, cacheGet fc0 k = some v → cacheGet fc1 k = some v) ∧
  ((cacheGet fc0 k).isSome = true → countInvoke k tr = 0) ∧
  countInvoke k tr ≤ 1 ∧
  (1 ≤ countInvoke k tr → (cacheGet fc1 k).isSome = true)

/-- Operations of an active span of a scope container: direct run_fixture
calls made on behalf of the tests it contains, and cleanups of other
(inner) scopes; the span ends when the container's own scope is cleaned. -/
inductive SpanOp where
  | runFix (f : Fixture)
  | cleanScope (scope : FixtureScope)

/-- Execution of a span of operations. -/
def run_span (env : GuestEnv) : List SpanOp → RunnerState → RunnerState × List RunEvent
  | [], st => (st, [])
  | .runFix f :: rest, st =>
    let (_, st1, tr1) := run_fixture env f st
    let (st2, tr2) := run_span env rest st1
    (st2, tr1 ++ tr2)
  | .cleanScope scope :: rest, st =>
    let (st1, tr1) := clean_up_scope st scope
    let (st2, tr2) := run_span env rest st1
    (st2, tr1 ++ tr2)

/-- Admissibility of a span for one cache key: every direct run_fixture
call in the span satisfies fixture_key_ok for the key, and no cleanup in
the span touches the key's own scope (the span, by construction, ends
before its own container's cleanup). -/
def span_key_ok (env : GuestEnv) (k : String × FixtureScope) : List SpanOp → Prop
  | [] => True
  | .runFix f :: rest => fixture_key_ok env k f ∧ span_key_ok env k rest
  | .cleanScope scope :: rest => scope ≠ k.2 ∧ span_key_ok env k rest

/-! ## Concrete instances used by counterexamples and witnesses -/

/-- Deterministic guest environment for the runner witnesses: every
callable returns 7, no generator behaviour, all tests pass. -/
def envA : GuestEnv where
  callResult := fun _ => .ok 7
  castIteratorOk := fun _ => false
  firstYield := fun _ => none
  asyncFirstYield := fun _ => .ok 0
  builtinValue := fun _ => 0
  builtinFirstYield := fun _ => none
  testResult := fun _ => .ok ()

/-- Module-scope fixture used by the memoization witness. -/
def c1fix : Fixture := .userDefined "db" FixtureScope.Module false false []

/-- Span for the memoization witness: the module fixture requested by two
tests, with a Function-scope cleanup between them. -/
def c1ops : List SpanOp :=
  [.runFix c1fix, .cleanScope FixtureScope.Function, .runFix c1fix]

/-- Empty initial runner state. -/
def st0 : RunnerState := ⟨[], []⟩

/-- Function-scope fixture used by the teardown witness. -/
def c2fix : Fixture := .userDefined "g" FixtureScope.Function false false []

/-- Test variant for the teardown witness: one direct fixture dependency,
not skipped. -/
def c2v : TestVariant := ⟨"t", [c2fix], [], [], false, false⟩

/-- Module for the teardown witness: no auto-use fixtures, one test. -/
def c2m : ModuleSpec := ⟨[], [[c2v]]⟩

/-- Concrete source for the C8 witness: the inline literal already equals
the generated literal for the expected value. -/
def w8src : String := "    karva.assert_snapshot('x', inline=\"x\")\n"

/-- Concrete source for the C3 witness: the stale hint line points at a call
in test_wrong, while the inline snapshot to rewrite belongs to test_right. -/
def w3src : String :=
  "def test_wrong():\n    karva.assert_snapshot('wrong', inline=\"wrong_value\")\n\ndef test_right():\n    karva.assert_snapshot('right', inline=\"\")\n"

/-- Concrete context used by the C7 counterexample: counter already at 3. -/
def c7ctx : SnapshotContext :=
  { test_file := "tests/test_example.py", test_name := "test_foo", counter := 3 }

/-- Concrete thread-local state for the C7 counterexample. -/
def c7st : SnapState := { ctx := some c7ctx, settingsStack := [] }

/-- Filesystem for the C7 counterexample: every path holds a snapshot whose
content matches the asserted value. -/
def c7fs : String → Option SnapshotFile :=
  fun _ => some { metadata := { source := none, inline_source := none, inline_line := none }
                  content := "x" }

/-! ## Lemmas about lists and the inline scanner -/

/-- Helper: a prefix is no longer than the list. -/
theorem isPrefixOf_length_le {p l : List Char} (h : p.isPrefixOf l = true) :
    p.length ≤ l.length := by
  induction p generalizing l with
  | nil => simp
  | cons a p' ih =>
    cases l with
    | nil => simp [List.isPrefixOf] at h
    | cons b l' =>
      simp only [List.isPrefixOf, Bool.and_eq_true, beq_iff_eq] at h
      simpa using ih h.2

/-- Helper: elements of a prefix agree with the list. -/
theorem isPrefixOf_getD {p l : List Char} (h : p.isPrefixOf l = true)
    {k : Nat} (hk : k < p.length) (d : Char) : l.getD k d = p.getD k d := by
  induction p generalizing l k with
  | nil => simp at hk
  | cons a p' ih =>
    cases l with
    | nil => simp [List.isPrefixOf] at h
    | cons b l' =>
      simp only [List.isPrefixOf, Bool.and_eq_true, beq_iff_eq] at h
      cases k with
      | zero => simp [h.1]
      | succ k' =>
        simp only [List.getD_cons_succ]
        exact ih h.2 (by simpa using hk)

/-- Helper: getD through drop. -/
theorem getD_drop (l : List Char) (n j : Nat) (d : Char) :
    (l.drop n).getD j d = l.getD (n + j) d := by
  induction l generalizing n j with
  | nil => simp
  | cons c rest ih =>
    cases n with
    | zero => simp
    | succ m =>
      simp [List.drop_succ_cons, Nat.succ_add, ih m j]

/-- Helper: dropWhile is drop of the takeWhile length. -/
theorem dropWhile_eq_drop (p : Char → Bool) (l : List Char) :
    l.dropWhile p = l.drop (l.takeWhile p).length := by
  induction l with
  | nil => rfl
  | cons c rest ih =>
    by_cases hp : p c <;> simp [List.dropWhile_cons, List.takeWhile_cons, hp, ih]

/-- Helper: every element inside the takeWhile region satisfies the predicate. -/
theorem takeWhile_getD {p : Char → Bool} {l : List Char} {j : Nat} (d : Char)
    (hj : j < (l.takeWhile p).length) : p (l.getD j d) = true := by
  induction l generalizing j with
  | nil => simp at hj
  | cons c rest ih =>
    by_cases hp : p c
    · cases j with
      | zero => simp [hp]
      | succ j' =>
        simp only [List.takeWhile_cons, hp, if_true, List.length_cons] at hj
        simp only [List.getD_cons_succ]
        exact ih (by omega)
    · simp [List.takeWhile_cons, hp] at hj

/-- Specification of the quote-end scanner: a result lies at or after the
start, inside the source, and the quote sequence occurs there. -/
theorem find_quote_end_go_spec {source quote : List Char} {fuel i e : Nat}
    (h : find_quote_end_go source quote fuel i = some e) :
    i ≤ e ∧ e < source.length ∧ quote.isPrefixOf (source.drop e) = true := by
  induction fuel generalizing i with
  | zero => simp [find_quote_end_go] at h
  | succ fuel ih =>
    simp only [find_quote_end_go] at h
    split at h
    · split at h
      · obtain ⟨h1, h2, h3⟩ := ih h
        exact ⟨by omega, h2, h3⟩
      · split at h
        · obtain rfl := Option.some_injective _ h
          exact ⟨Nat.le_refl _, by assumption, by assumption⟩
        · obtain ⟨h1, h2, h3⟩ := ih h
          exact ⟨by omega, h2, h3⟩
    · exact absurd h (by simp)

/-- Specification of find_triple_quote_end. -/
theorem find_triple_quote_end_spec {source quote : List Char} {start e : Nat}
    (h : find_triple_quote_end source start quote = some e) :
    start ≤ e ∧ e < source.length ∧ quote.isPrefixOf (source.drop e) = true :=
  find_quote_end_go_spec h

/-- Specification of find_single_quote_end. -/
theorem find_single_quote_end_spec {source : List Char} {quote : Char} {start e : Nat}
    (h : find_single_quote_end source start quote = some e) :
    start ≤ e ∧ e < source.length ∧ [quote].isPrefixOf (source.drop e) = true :=
  find_quote_end_go_spec h

/-- Helper: a prefix occurring at position e fits inside the list. -/
theorem prefix_at_le_length {q source : List Char} {e : Nat}
    (h : q.isPrefixOf (source.drop e) = true) (he : e ≤ source.length) :
    e + q.length ≤ source.length := by
  have := isPrefixOf_length_le h
  simp only [List.length_drop] at this
  omega

/-- Helper: skipping to a newline never moves backwards. -/
theorem skip_to_newline_go_ge {source : List Char} {fuel i : Nat} :
    i ≤ skip_to_newline_go source fuel i := by
  induction fuel generalizing i with
  | zero => simp [skip_to_newline_go]
  | succ fuel ih =>
    simp only [skip_to_newline_go]
    split
    · split
      · exact Nat.le_trans (by omega) ih
      · exact Nat.le_refl _
    · exact Nat.le_refl _

/-- Helper: the bounded newline skip never moves backwards. -/
theorem skip_to_newline_before_go_ge {source : List Char} {stop fuel i : Nat} :
    i ≤ skip_to_newline_before_go source stop fuel i := by
  induction fuel generalizing i with
  | zero => simp [skip_to_newline_before_go]
  | succ fuel ih =>
    simp only [skip_to_newline_before_go]
    split
    · exact Nat.le_trans (by omega) ih
    · exact Nat.le_refl _

/-- Specification of the close-paren scanner: a result lies at or after the
starting index, inside the source, and holds a close parenthesis. -/
theorem find_matching_close_paren_go_spec {source : List Char}
    {fuel i e : Nat} {depth : Int}
    (h : find_matching_close_paren_go source fuel i depth = some e) :
    i ≤ e ∧ e < source.length ∧ source.getD e ' ' = ')' := by
  induction fuel generalizing i depth with
  | zero => simp [find_matching_close_paren_go] at h
  | succ fuel ih =>
    simp only [find_matching_close_paren_go] at h
    split at h
    case isTrue hlen =>
      split at h
      · obtain ⟨h1, h2, h3⟩ := ih h
        exact ⟨by omega, h2, h3⟩
      · split at h
        case isTrue =>
          split at h
          · obtain rfl := Option.some_injective _ h
            refine ⟨Nat.le_refl _, hlen, ?_⟩
            have hc : source.get ⟨i, hlen⟩ = ')' := by assumption
            simp only [List.get_eq_getElem] at hc
            simp [List.getD, List.getElem?_eq_getElem hlen, hc]
          · obtain ⟨h1, h2, h3⟩ := ih h
            exact ⟨by omega, h2, h3⟩
        case isFalse =>
          split at h
          · split at h
            · split at h
              case h_1 e' heq =>
                obtain ⟨h1, h2, h3⟩ := ih h
                have := (find_triple_quote_end_spec heq).1
                exact ⟨by omega, h2, h3⟩
              case h_2 => exact absurd h (by simp)
            · split at h
              case h_1 e' heq =>
                obtain ⟨h1, h2, h3⟩ := ih h
                have := (find_single_quote_end_spec heq).1
                exact ⟨by omega, h2, h3⟩
              case h_2 => exact absurd h (by simp)
          · split at h
            · split at h
              · split at h
                case h_1 e' heq =>
                  obtain ⟨h1, h2, h3⟩ := ih h
                  have := (find_triple_quote_end_spec heq).1
                  exact ⟨by omega, h2, h3⟩
                case h_2 => exact absurd h (by simp)
              · split at h
                case h_1 e' heq =>
                  obtain ⟨h1, h2, h3⟩ := ih h
                  have := (find_single_quote_end_spec heq).1
                  exact ⟨by omega, h2, h3⟩
                case h_2 => exact absurd h (by simp)
            · split at h
              · obtain ⟨h1, h2, h3⟩ := ih h
                have := @skip_to_newline_go_ge source (source.length + 1) i
                simp only [skip_to_newline] at h1
                exact ⟨by omega, h2, h3⟩
              · obtain ⟨h1, h2, h3⟩ := ih h
                exact ⟨by omega, h2, h3⟩
    case isFalse => exact absurd h (by simp)

/-- Specification of find_matching_close_paren. -/
theorem find_matching_close_paren_spec {source : List Char} {open_pos e : Nat}
    (h : find_matching_close_paren source open_pos = some e) :
    open_pos ≤ e ∧ e < source.length ∧ source.getD e ' ' = ')' :=
  find_matching_close_paren_go_spec h

/-- Specification of the keyword scanner: a result lies at or after the
starting index, before the stop bound, and the keyword occurs there. -/
theorem find_keyword_in_call_go_spec {source keyword : List Char}
    {stop fuel i p : Nat}
    (h : find_keyword_in_call_go source stop keyword fuel i = some p) :
    i ≤ p ∧ p < stop ∧ keyword.isPrefixOf (source.drop p) = true := by
  induction fuel generalizing i with
  | zero => simp [find_keyword_in_call_go] at h
  | succ fuel ih =>
    simp only [find_keyword_in_call_go] at h
    split at h
    case isTrue hlt =>
      split at h
      · split at h
        · split at h
          case h_1 e' heq =>
            obtain ⟨h1, h2, h3⟩ := ih h
            have := (find_triple_quote_end_spec heq).1
            exact ⟨by omega, h2, h3⟩
          case h_2 => exact absurd h (by simp)
        · split at h
          case h_1 e' heq =>
            obtain ⟨h1, h2, h3⟩ := ih h
            have := (find_single_quote_end_spec heq).1
            exact ⟨by omega, h2, h3⟩
          case h_2 => exact absurd h (by simp)
      · split at h
        · split at h
          · split at h
            case h_1 e' heq =>
              obtain ⟨h1, h2, h3⟩ := ih h
              have := (find_triple_quote_end_spec heq).1
              exact ⟨by omega, h2, h3⟩
            case h_2 => exact absurd h (by simp)
          · split at h
            case h_1 e' heq =>
              obtain ⟨h1, h2, h3⟩ := ih h
              have := (find_single_quote_end_spec heq).1
              exact ⟨by omega, h2, h3⟩
            case h_2 => exact absurd h (by simp)
        · split at h
          · obtain ⟨h1, h2, h3⟩ := ih h
            have := @skip_to_newline_before_go_ge source stop (stop + 1) i
            simp only [skip_to_newline_before] at h1
            exact ⟨by omega, h2, h3⟩
          · split at h
            · obtain rfl := Option.some_injective _ h
              exact ⟨Nat.le_refl _, hlt, by assumption⟩
            · obtain ⟨h1, h2, h3⟩ := ih h
              exact ⟨by omega, h2, h3⟩
    case isFalse => exact absurd h (by simp)

/-- Specification of find_keyword_in_call. -/
theorem find_keyword_in_call_spec {source keyword : List Char} {start stop p : Nat}
    (h : find_keyword_in_call source start stop keyword = some p) :
    start ≤ p ∧ p < stop ∧ keyword.isPrefixOf (source.drop p) = true :=
  find_keyword_in_call_go_spec h

/-- Specification of findSub: the pattern occurs at the reported index. -/
theorem findSub_spec {pat s : List Char} {p : Nat} (h : findSub pat s = some p) :
    pat.isPrefixOf (s.drop p) = true := by
  induction s generalizing p with
  | nil =>
    simp only [findSub] at h
    split at h
    · obtain rfl := Option.some_injective _ h
      simp_all [List.isEmpty_iff]
    · exact absurd h (by simp)
  | cons c rest ih =>
    simp only [findSub] at h
    split at h
    · obtain rfl := Option.some_injective _ h
      simpa using (by assumption : pat.isPrefixOf (c :: rest) = true)
    · obtain ⟨q, hq, rfl⟩ := Option.map_eq_some'.mp h
      simpa using ih hq

/-- Helper: the foldl used by find_snapshot_call picks one of its inputs. -/
theorem foldl_pick_mem {α : Type} (lt : α → α → Bool) (x : α) (xs : List α) :
    xs.foldl (fun best y => if lt y best then y else best) x ∈ x :: xs := by
  induction xs generalizing x with
  | nil => simp
  | cons y ys ih =>
    simp only [List.foldl_cons]
    by_cases hlt : lt y x
    · simp only [hlt, if_true]
      rcases List.mem_cons.mp (ih y) with h | h
      · simp [h]
      · exact List.mem_cons_of_mem x (List.mem_cons_of_mem y h)
    · simp only [hlt, Bool.false_eq_true, if_false]
      rcases List.mem_cons.mp (ih x) with h | h
      · simp [h]
      · exact List.mem_cons_of_mem x (List.mem_cons_of_mem y h)

/-- Specification of find_snapshot_call: the result is a recognized pattern
occurring at the reported position. -/
theorem find_snapshot_call_spec {s pat : List Char} {p : Nat}
    (h : find_snapshot_call s = some (p, pat)) :
    pat ∈ SNAPSHOT_CALL_PATTERNS ∧ pat.isPrefixOf (s.drop p) = true := by
  simp only [find_snapshot_call] at h
  split at h
  · exact absurd h (by simp)
  case h_2 x xs heq =>
    have hfold := Option.some_injective _ h
    have hmem : (p, pat) ∈ x :: xs := by
      rw [← hfold]
      have := foldl_pick_mem (fun y best => decide (y.1 < best.1)) x xs
      simpa using this
    rw [← heq] at hmem
    obtain ⟨q, hq, hfq⟩ := List.mem_filterMap.mp hmem
    obtain ⟨pos, hpos, hpq⟩ := Option.map_eq_some'.mp hfq
    have hq1 : pos = p := congrArg Prod.fst hpq
    have hq2 : q = pat := congrArg Prod.snd hpq
    subst hq1
    subst hq2
    exact ⟨hq, findSub_spec hpos⟩

/-- Specification of parse_string_literal: the reported literal begins at or
after the offset with only whitespace in between, starts with a quote
character, and both its offsets stay within the source. -/
theorem parse_string_literal_spec {source : List Char} {off a b : Nat}
    (h : parse_string_literal source off = some (a, b)) :
    off ≤ a ∧ a + 2 ≤ b ∧ b ≤ source.length ∧
    (∀ k, off ≤ k → k < a → (source.getD k ' ').isWhitespace = true) ∧
    (source.getD a ' ' = '"' ∨ source.getD a ' ' = '\'') := by
  simp only [parse_string_literal] at h
  set ws := ((source.drop off).takeWhile Char.isWhitespace).length with hws
  have hdw : (source.drop off).dropWhile Char.isWhitespace = source.drop (off + ws) := by
    rw [dropWhile_eq_drop, ← hws, List.drop_drop]
  have hwhite : ∀ k, off ≤ k → k < off + ws → (source.getD k ' ').isWhitespace = true := by
    intro k hk1 hk2
    have hj : k - off < ws := by omega
    have := takeWhile_getD (p := Char.isWhitespace) (l := source.drop off) ' ' (by
      rw [← hws]
      exact hj)
    rw [getD_drop] at this
    have hoff : off + (k - off) = k := by omega
    rwa [hoff] at this
  rw [hdw] at h
  have hquote : ∀ q : Char, ∀ tail : List Char,
      (q :: tail).isPrefixOf (source.drop (off + ws)) = true →
      source.getD (off + ws) ' ' = q := by
    intro q tail hpre
    have := isPrefixOf_getD hpre (k := 0) (by simp) ' '
    rw [getD_drop] at this
    simpa using this
  split at h
  case isTrue hcond =>
    obtain ⟨e, he, hpair⟩ := Option.map_eq_some'.mp h
    obtain ⟨ha, hb⟩ : off + ws = a ∧ e + 3 = b := Prod.mk.injEq .. ▸ hpair
    obtain ⟨he1, he2, he3⟩ := find_triple_quote_end_spec he
    have hfit := prefix_at_le_length he3 (Nat.le_of_lt he2)
    subst ha hb
    exact ⟨by omega, by omega, by simpa using hfit, hwhite,
      Or.inl (hquote '"' ['"', '"'] hcond)⟩
  case isFalse =>
  split at h
  case isTrue hcond =>
    obtain ⟨e, he, hpair⟩ := Option.map_eq_some'.mp h
    obtain ⟨ha, hb⟩ : off + ws = a ∧ e + 3 = b := Prod.mk.injEq .. ▸ hpair
    obtain ⟨he1, he2, he3⟩ := find_triple_quote_end_spec he
    have hfit := prefix_at_le_length he3 (Nat.le_of_lt he2)
    subst ha hb
    exact ⟨by omega, by omega, by simpa using hfit, hwhite,
      Or.inr (hquote '\'' ['\'', '\''] hcond)⟩
  case isFalse =>
  split at h
  case isTrue hcond =>
    obtain ⟨e, he, hpair⟩ := Option.map_eq_some'.mp h
    obtain ⟨ha, hb⟩ : off + ws = a ∧ e + 1 = b := Prod.mk.injEq .. ▸ hpair
    obtain ⟨he1, he2, he3⟩ := find_single_quote_end_spec he
    have hfit := prefix_at_le_length he3 (Nat.le_of_lt he2)
    subst ha hb
    exact ⟨by omega, by omega, by simpa using hfit, hwhite,
      Or.inl (hquote '"' [] hcond)⟩
  case isFalse =>
  split at h
  case isTrue hcond =>
    obtain ⟨e, he, hpair⟩ := Option.map_eq_some'.mp h
    obtain ⟨ha, hb⟩ : off + ws = a ∧ e + 1 = b := Prod.mk.injEq .. ▸ hpair
    obtain ⟨he1, he2, he3⟩ := find_single_quote_end_spec he
    have hfit := prefix_at_le_length he3 (Nat.le_of_lt he2)
    subst ha hb
    exact ⟨by omega, by omega, by simpa using hfit, hwhite,
      Or.inr (hquote '\'' [] hcond)⟩
  case isFalse => exact absurd h (by simp)

/-- Helper: every recognized call pattern is non-empty. -/
theorem snapshot_pattern_length_pos {pat : List Char}
    (h : pat ∈ SNAPSHOT_CALL_PATTERNS) : 1 ≤ pat.length := by
  simp only [SNAPSHOT_CALL_PATTERNS, List.mem_cons, List.not_mem_nil, or_false] at h
  rcases h with rfl | rfl | rfl <;> decide

/-- Specification of the find_inline_argument loop: a returned location
comes from a snapshot call at or after the search offset whose matching
close parenthesis exists, whose containing function passed the name check,
and whose inline= keyword and literal were found by the bounded scanners. -/
theorem find_inline_argument_loop_spec {source : List Char} {indent : Nat}
    {function_name : Option String} {fuel so : Nat} {loc : InlineLocation}
    (h : find_inline_argument_loop source indent function_name fuel so = some loc) :
    ∃ call_start pat call_end inline_pos,
      pat ∈ SNAPSHOT_CALL_PATTERNS ∧
      pat.isPrefixOf (source.drop call_start) = true ∧
      so ≤ call_start ∧
      find_matching_close_paren source (call_start + pat.length - 1) = some call_end ∧
      (∀ fname g, function_name = some fname →
        containing_function_name source call_start = some g → g = fname) ∧
      find_keyword_in_call source (call_start + pat.length - 1) call_end
        "inline=".data = some inline_pos ∧
      parse_string_literal source (inline_pos + "inline=".length)
        = some (loc.start, loc.stop) ∧
      loc.indent = indent := by
  induction fuel generalizing so with
  | zero => simp [find_inline_argument_loop] at h
  | succ fuel ih =>
    simp only [find_inline_argument_loop] at h
    split at h
    case h_1 => exact absurd h (by simp)
    case h_2 call_pos call_pattern hcall =>
      obtain ⟨hmem, hpre0⟩ := find_snapshot_call_spec hcall
      rw [List.drop_drop] at hpre0
      split at h
      case h_1 => exact absurd h (by simp)
      case h_2 call_end hclose =>
        obtain ⟨hce1, hce2, hce3⟩ := find_matching_close_paren_spec hclose
        have hplen := snapshot_pattern_length_pos hmem
        split at h
        case isTrue =>
          split at h
          case isTrue => exact absurd h (by simp)
          case isFalse hlen =>
            obtain ⟨cs, pat, ce, ip, m1, m2, m3, m4, m5, m6, m7, m8⟩ := ih h
            exact ⟨cs, pat, ce, ip, m1, m2, by omega, m4, m5, m6, m7, m8⟩
        case isFalse hw =>
          split at h
          case h_1 => exact absurd h (by simp)
          case h_2 ip hkw =>
            split at h
            case isTrue => exact absurd h (by simp)
            case isFalse hlen2 =>
              split at h
              case h_1 => exact absurd h (by simp)
              case h_2 ls le2 hparse =>
                obtain rfl := Option.some_injective _ h
                refine ⟨so + call_pos, call_pattern, call_end, ip, hmem, hpre0,
                  by omega, hclose, ?_, hkw, hparse, rfl⟩
                intro fname g hf hg
                subst hf
                rw [hg] at hw
                simpa using hw

/-- Specification of find_inline_argument: the returned literal location
comes from a snapshot call at or after the hint line's byte offset that
passed the containing-function check. -/
theorem find_inline_argument_spec {source : String} {n : Nat}
    {function_name : Option String} {loc : InlineLocation}
    (h : find_inline_argument source n function_name = some loc) :
    ∃ call_start pat call_end inline_pos,
      pat ∈ SNAPSHOT_CALL_PATTERNS ∧
      pat.isPrefixOf (source.data.drop call_start) = true ∧
      line_byte_offset (rustLinesChars source.data) (n - 1) ≤ call_start ∧
      find_matching_close_paren source.data (call_start + pat.length - 1)
        = some call_end ∧
      (∀ fname g, function_name = some fname →
        containing_function_name source.data call_start = some g → g = fname) ∧
      find_keyword_in_call source.data (call_start + pat.length - 1) call_end
        "inline=".data = some inline_pos ∧
      parse_string_literal source.data (inline_pos + "inline=".length)
        = some (loc.start, loc.stop) := by
  cases n with
  | zero => simp [find_inline_argument] at h
  | succ idx =>
    simp only [find_inline_argument] at h
    split at h
    · exact absurd h (by simp)
    · obtain ⟨cs, pat, ce, ip, m1, m2, m3, m4, m5, m6, m7, _⟩ :=
        find_inline_argument_loop_spec h
      exact ⟨cs, pat, ce, ip, m1, m2, by simpa using m3, m4, m5, m6, m7⟩

/-- Helper: bounds of the literal range returned by find_inline_argument. -/
theorem find_inline_argument_bounds {source : String} {n : Nat}
    {function_name : Option String} {loc : InlineLocation}
    (h : find_inline_argument source n function_name = some loc) :
    loc.start + 2 ≤ loc.stop ∧ loc.stop ≤ source.data.length := by
  obtain ⟨_, _, _, _, _, _, _, _, _, _, hparse⟩ := find_inline_argument_spec h
  obtain ⟨_, h2, h3, _, _⟩ := parse_string_literal_spec hparse
  exact ⟨h2, h3⟩

/-! ## Theorems: inline rewrite idempotence (C8) -/

/-- C8: if the literal currently in the source over the located range
already equals the literal generate_inline_literal produces for the
expected value, then rewrite_inline_snapshot returns the source unchanged:
splicing an identical literal over its own range is the identity. -/
theorem c8_inline_rewrite_idempotent (source : String) (line_number : Nat)
    (new_value : String) (function_name : Option String) (loc : InlineLocation)
    (hfind : find_inline_argument source line_number function_name = some loc)
    (hsame : (source.data.drop loc.start).take (loc.stop - loc.start)
      = (generate_inline_literal new_value loc.indent).data) :
    rewrite_inline_snapshot source line_number new_value function_name = some source := by
  obtain ⟨hab, hblen⟩ := find_inline_argument_bounds hfind
  simp only [rewrite_inline_snapshot, hfind, Option.map_some']
  have hdd : source.data.drop loc.stop
      = (source.data.drop loc.start).drop (loc.stop - loc.start) := by
    rw [List.drop_drop]
    congr 1
    omega
  have hdata : apply_edit source.data loc.start loc.stop
      (generate_inline_literal new_value loc.indent).data = source.data := by
    rw [← hsame]
    simp only [apply_edit]
    rw [List.append_assoc, hdd, List.take_append_drop, List.take_append_drop]
  rw [hdata]

/-- C8 witness: the theorem applied at a concrete source whose inline
literal already matches the generated literal; the rewrite is the identity. -/
theorem c8_inline_rewrite_idempotent_witness :
    rewrite_inline_snapshot w8src 1 "x" none = some w8src :=
  c8_inline_rewrite_idempotent w8src 1 "x" none
    { start := 38, stop := 41, indent := 4 } (by decide) (by decide)

/-! ## Theorems: stale-line safety of the inline rewriter (C3) -/

/-- C3: when find_inline_argument runs with a function name, any returned
literal range comes from a snapshot call opener at or after the hint line's
byte offset whose matching close parenthesis exists, whose containing
function is not a different function (the loop advanced past every call
whose nearest preceding def names someone else), and the literal lies
strictly inside that call's parentheses; consequently rewriting with a
stale line number only replaces bytes of that literal range, leaving every
byte before the literal and after it (in particular any intervening call of
another function) unchanged. -/
theorem c3_stale_line_safety (source : String) (line_number : Nat) (fname : String)
    (loc : InlineLocation)
    (hfind : find_inline_argument source line_number (some fname) = some loc) :
    ∃ call_start pat call_end,
      pat ∈ SNAPSHOT_CALL_PATTERNS ∧
      pat.isPrefixOf (source.data.drop call_start) = true ∧
      line_byte_offset (rustLinesChars source.data) (line_number - 1) ≤ call_start ∧
      find_matching_close_paren source.data (call_start + pat.length - 1)
        = some call_end ∧
      (∀ g, containing_function_name source.data call_start = some g → g = fname) ∧
      call_start + pat.length - 1 < loc.start ∧ loc.start < call_end ∧
      loc.stop ≤ source.data.length ∧
      (∀ new_value s',
        rewrite_inline_snapshot source line_number new_value (some fname) = some s' →
        s'.data.take loc.start = source.data.take loc.start ∧
        s'.data.drop
            (loc.start + (generate_inline_literal new_value loc.indent).data.length)
          = source.data.drop loc.stop) := by
  obtain ⟨cs, pat, ce, ip, m1, m2, m3, m4, m5, m6, m7⟩ := find_inline_argument_spec hfind
  obtain ⟨hkw1, hkw2, hkw3⟩ := find_keyword_in_call_spec m6
  obtain ⟨hp1, hp2, hp3, hp4, hp5⟩ := parse_string_literal_spec m7
  obtain ⟨hc1, hc2, hc3⟩ := find_matching_close_paren_spec m4
  have hlen7 : ("inline=".length : Nat) = 7 := by decide
  rw [hlen7] at m7 hp1 hp4
  have hdlen7 : ("inline=".data).length = 7 := by decide
  have hip7 : ip + 7 ≤ ce := by
    by_contra hcon
    push_neg at hcon
    have hchar : source.data.getD (ip + (ce - ip)) ' ' = "inline=".data.getD (ce - ip) ' ' := by
      rw [← getD_drop]
      exact isPrefixOf_getD hkw3 (by omega) ' '
    have hie : ip + (ce - ip) = ce := by omega
    rw [hie, hc3] at hchar
    have h6 : ce - ip = 1 ∨ ce - ip = 2 ∨ ce - ip = 3 ∨ ce - ip = 4 ∨ ce - ip = 5 ∨
        ce - ip = 6 := by omega
    rcases h6 with h | h | h | h | h | h <;> rw [h] at hchar <;> exact absurd hchar (by decide)
  have hstart_lt : loc.start < ce := by
    have hle : loc.start ≤ ce := by
      by_contra hcon
      push_neg at hcon
      have := hp4 ce (by omega) hcon
      rw [hc3] at this
      exact absurd this (by decide)
    rcases Nat.lt_or_ge loc.start ce with h | h
    · exact h
    · have hee : loc.start = ce := by omega
      rw [hee, hc3] at hp5
      rcases hp5 with h5 | h5 <;> exact absurd h5 (by decide)
  refine ⟨cs, pat, ce, m1, m2, m3, m4, fun g hg => m5 fname g rfl hg, by omega, hstart_lt,
    by omega, ?_⟩
  intro new_value s' hrw
  simp only [rewrite_inline_snapshot, hfind, Option.map_some'] at hrw
  have hs' : s'.data = apply_edit source.data loc.start loc.stop
      (generate_inline_literal new_value loc.indent).data :=
    (congrArg String.data (Option.some_injective _ hrw)).symm
  have hstart_le_len : loc.start ≤ source.data.length := by omega
  have htlen : (source.data.take loc.start).length = loc.start := by
    rw [List.length_take]
    omega
  constructor
  · rw [hs']
    simp only [apply_edit]
    rw [List.append_assoc, List.take_append_of_le_length (le_of_eq htlen.symm),
      List.take_take]
    simp
  · rw [hs']
    simp only [apply_edit]
    have hl : (source.data.take loc.start
        ++ (generate_inline_literal new_value loc.indent).data).length
        = loc.start + (generate_inline_literal new_value loc.indent).data.length := by
      simp [List.length_append, htlen]
    rw [← hl, List.drop_left]

set_option maxRecDepth 40000 in
/-- C3 witness: the theorem applied to a source where the stale hint line 1
points inside test_wrong while the snapshot belongs to test_right; the
located literal is the one of test_right. -/
theorem c3_stale_line_safety_witness :
    ∃ call_start pat call_end,
      pat ∈ SNAPSHOT_CALL_PATTERNS ∧
      pat.isPrefixOf (w3src.data.drop call_start) = true ∧
      line_byte_offset (rustLinesChars w3src.data) (1 - 1) ≤ call_start ∧
      find_matching_close_paren w3src.data (call_start + pat.length - 1)
        = some call_end ∧
      (∀ g, containing_function_name w3src.data call_start = some g → g = "test_right") ∧
      call_start + pat.length - 1
          < (InlineLocation.mk 136 138 0).start ∧
      (InlineLocation.mk 136 138 0).start < call_end ∧
      (InlineLocation.mk 136 138 0).stop ≤ w3src.data.length ∧
      (∀ new_value s',
        rewrite_inline_snapshot w3src 1 new_value (some "test_right") = some s' →
        s'.data.take (InlineLocation.mk 136 138 0).start
            = w3src.data.take (InlineLocation.mk 136 138 0).start ∧
        s'.data.drop ((InlineLocation.mk 136 138 0).start
              + (generate_inline_literal new_value (InlineLocation.mk 136 138 0).indent).data.length)
          = w3src.data.drop (InlineLocation.mk 136 138 0).stop) :=
  c3_stale_line_safety w3src 1 "test_right" (InlineLocation.mk 136 138 0) (by decide)

/-- C5 counterexample: with the expect_fail tag present, a raising
(non-skip) test is registered as Passed, not as an ExpectedFailure outcome
as the claim states. -/
theorem c5_counterexample :
    classify_test_result
        (.error { isSkipException := false, skipReason := none, missingArgs := [] }) true
      = (.Passed, []) ∧
    IndividualTestResultKind.Passed ≠ IndividualTestResultKind.ExpectedFailure := by
  exact ⟨rfl, by decide⟩

/-- C5 (amended): the skip-sentinel error maps to Skipped with the extracted
reason (even under expect_fail); any other error without expect_fail maps to
Failed; with expect_fail, a raising test is registered as Passed with no
diagnostic, and a passing test is registered as Failed with the
pass-on-expect-failure diagnostic. -/
theorem c5_classification (err : PyErr) (expect_fail : Bool) :
    (err.isSkipException = true →
      classify_test_result (.error err) expect_fail = (.Skipped err.skipReason, [])) ∧
    (err.isSkipException = false → expect_fail = false →
      (classify_test_result (.error err) false).1 = .Failed) ∧
    (err.isSkipException = false →
      classify_test_result (.error err) true = (.Passed, [])) ∧
    classify_test_result (.ok ()) true = (.Failed, [.passOnExpectFailure]) ∧
    classify_test_result (.ok ()) false = (.Passed, []) := by
  refine ⟨fun h => ?_, fun h _ => ?_, fun h => ?_, rfl, rfl⟩
  · simp [classify_test_result, h]
  · by_cases hm : err.missingArgs.isEmpty <;> simp [classify_test_result, h, hm]
  · simp [classify_test_result, h]

/-- C5 witness: the amended theorem applied at a concrete skip error. -/
theorem c5_classification_witness :
    classify_test_result
        (.error { isSkipException := true, skipReason := some "r", missingArgs := [] }) false
      = (.Skipped (some "r"), []) :=
  (c5_classification { isSkipException := true, skipReason := some "r", missingArgs := [] }
    false).1 rfl

/-! ## Theorems: finalizer teardown diagnostics (C6) -/

/-- C6: running a finalizer classifies the extra generator step into exactly
three outcomes — exhaustion (and the cast/call failure cases, plus the async
StopAsyncIteration sentinel) produce no diagnostic, a second yielded value
produces the more-than-one-yield diagnostic, and any other raised error
produces a failed-to-reset diagnostic carrying the error message — and
finalizer_run is total, so draining a finalizer list runs every finalizer
exactly once regardless of earlier diagnostics. -/
theorem c6_finalizer_outcomes (env : TeardownEnv) (fin : Finalizer) (n : String)
    (hname : fin.fixture_name = some n) :
    ((fin.is_async = false →
        ((env.syncStep (some n) = .exhausted ∨ env.syncStep (some n) = .notIterator) →
          finalizer_run env fin = none) ∧
        (env.syncStep (some n) = .yielded →
          finalizer_run env fin = some "Fixture had more than one yield statement") ∧
        (∀ m, env.syncStep (some n) = .raised m →
          finalizer_run env fin = some ("Failed to reset fixture: " ++ m))) ∧
     (fin.is_async = true →
        ((env.asyncStep (some n) = .stopAsyncIteration ∨
          env.asyncStep (some n) = .anextCallFailed) →
          finalizer_run env fin = none) ∧
        (env.asyncStep (some n) = .yielded →
          finalizer_run env fin = some "Fixture had more than one yield statement") ∧
        (∀ m, env.asyncStep (some n) = .raised m →
          finalizer_run env fin = some ("Failed to reset fixture: " ++ m)))) ∧
    (finalizer_run env fin = none ∨
     finalizer_run env fin = some "Fixture had more than one yield statement" ∨
     ∃ m, finalizer_run env fin = some ("Failed to reset fixture: " ++ m)) ∧
    (∀ fins : List Finalizer, (fins.map (finalizer_run env)).length = fins.length) := by
  refine ⟨⟨fun ha => ⟨fun h => ?_, fun h => ?_, fun m h => ?_⟩,
           fun ha => ⟨fun h => ?_, fun h => ?_, fun m h => ?_⟩⟩, ?_, fun fins => by simp⟩
  · rcases h with h | h <;>
      simp [finalizer_run, run_sync_teardown, ha, hname, h]
  · simp [finalizer_run, run_sync_teardown, ha, hname, h]
  · simp [finalizer_run, run_sync_teardown, ha, hname, h]
  · rcases h with h | h <;>
      simp [finalizer_run, run_async_teardown, ha, hname, h]
  · simp [finalizer_run, run_async_teardown, ha, hname, h]
  · simp [finalizer_run, run_async_teardown, ha, hname, h]
  · by_cases ha : fin.is_async
    · rcases hstep : env.asyncStep (some n) with _ | _ | _ | m
      · exact Or.inl (by simp [finalizer_run, run_async_teardown, ha, hname, hstep])
      · exact Or.inr (Or.inl (by simp [finalizer_run, run_async_teardown, ha, hname, hstep]))
      · exact Or.inl (by simp [finalizer_run, run_async_teardown, ha, hname, hstep])
      · exact Or.inr (Or.inr ⟨m, by simp [finalizer_run, run_async_teardown, ha, hname, hstep]⟩)
    · rcases hstep : env.syncStep (some n) with _ | _ | _ | m
      · exact Or.inl (by simp [finalizer_run, run_sync_teardown, ha, hname, hstep])
      · exact Or.inl (by simp [finalizer_run, run_sync_teardown, ha, hname, hstep])
      · exact Or.inr (Or.inl (by simp [finalizer_run, run_sync_teardown, ha, hname, hstep]))
      · exact Or.inr (Or.inr ⟨m, by simp [finalizer_run, run_sync_teardown, ha, hname, hstep]⟩)

/-! ## Theorems: unnamed-snapshot counter discipline (C7) -/

/-- C7 counterexample: a call with an explicit name does not increment the
per-test counter (the claim says every call increments it): starting from
counter 3, the named call succeeds and leaves the counter at 3. -/
theorem c7_counterexample :
    (assert_snapshot_impl c7fs false none "x" none (some "custom") c7st).2.1 = c7st ∧
    (assert_snapshot_impl c7fs false none "x" none (some "custom") c7st).1 = .ok () ∧
    c7st.ctx = some c7ctx ∧ c7ctx.counter = 3 := by
  refine ⟨rfl, ?_, rfl, rfl⟩
  rfl

/-- C7 (amended): an unnamed, non-inline call increments the per-test
counter (named and inline calls leave the thread-local state unchanged); the
runner installs a fresh context with counter 0 before each test; an unnamed
non-inline call whose pre-increment counter is positive, with no
allow_duplicates frame active, raises the too-many-unnamed error (after
incrementing) and writes nothing; and supplying both inline and name raises
immediately, regardless of the counter, changing nothing. -/
theorem c7_counter_discipline (fs : String → Option SnapshotFile) (update_mode : Bool)
    (ci : Option (String × Nat)) (serialized : String)
    (inline name : Option String) (st : SnapState) (c : SnapshotContext)
    (f n : String) :
    (st.ctx = some c →
      (assert_snapshot_impl fs update_mode ci serialized none none st).2.1
        = { st with ctx := some { c with counter := c.counter + 1 } }) ∧
    (st.ctx = some c → (inline.isSome = true ∨ name.isSome = true) →
      (assert_snapshot_impl fs update_mode ci serialized inline name st).2.1 = st) ∧
    (set_snapshot_context f n st).ctx
      = some { test_file := f, test_name := n, counter := 0 } ∧
    (st.ctx = some c → 0 < c.counter →
      is_allow_duplicates_active st.settingsStack = false →
      (assert_snapshot_impl fs update_mode ci serialized none none st).1
          = .error .tooManyUnnamed ∧
      (assert_snapshot_impl fs update_mode ci serialized none none st).2.2 = []) ∧
    (inline.isSome = true → name.isSome = true →
      assert_snapshot_impl fs update_mode ci serialized inline name st
        = (.error .bothInlineAndName, st, [])) := by
  refine ⟨fun hctx => ?_, fun hctx hsome => ?_, rfl, fun hctx hc hallow => ?_,
    fun hi hn => ?_⟩
  · simp only [assert_snapshot_impl, Option.isSome_none, Bool.false_and, Bool.false_eq_true,
      if_false, hctx]
    by_cases hg : c.counter > 0 && !is_allow_duplicates_active st.settingsStack <;>
      simp [hg]
  · rcases inline with _ | iv <;> rcases name with _ | nv
    · simp at hsome
    · simp only [assert_snapshot_impl, hctx]
      rfl
    · simp only [assert_snapshot_impl, hctx]
      rfl
    · simp only [assert_snapshot_impl]
      rfl
  · simp only [assert_snapshot_impl, Option.isSome_none, Bool.false_and, Bool.false_eq_true,
      if_false, hctx]
    have hg : (c.counter > 0 && !is_allow_duplicates_active st.settingsStack) = true := by
      simp [hc, hallow]
    simp [hg]
  · rcases inline with _ | iv
    · simp at hi
    rcases name with _ | nv
    · simp at hn
    simp [assert_snapshot_impl]

/-- C7 witness: the amended theorem applied at a concrete state with
counter 2 and no allow_duplicates: the unnamed call raises too-many-unnamed
and performs no write. -/
theorem c7_counter_discipline_witness :
    (assert_snapshot_impl c7fs false none "x" none none
        { ctx := some { test_file := "t.py", test_name := "test_a", counter := 2 }
          settingsStack := [] }).1 = .error .tooManyUnnamed ∧
    (assert_snapshot_impl c7fs false none "x" none none
        { ctx := some { test_file := "t.py", test_name := "test_a", counter := 2 }
          settingsStack := [] }).2.2 = [] :=
  (c7_counter_discipline c7fs false none "x" none none
      { ctx := some { test_file := "t.py", test_name := "test_a", counter := 2 }
        settingsStack := [] }
      { test_file := "t.py", test_name := "test_a", counter := 2 } "f" "n").2.2.2.1
    rfl (by decide) rfl

/-! ## Theorems: empty inline snapshot never passes (C9) -/

/-- C9: an inline snapshot assertion whose inline argument is the empty
string never compares equal — even when the actual serialized output is
empty. In non-update mode it writes a pending .snap.new carrying
inline_source and inline_line metadata and raises the new-inline-snapshot
error (not a mismatch diff); in update mode it rewrites the source file
directly and succeeds. -/
theorem c9_empty_inline (fs : String → Option SnapshotFile) (update_mode : Bool)
    (serialized : String) (st : SnapState) (c : SnapshotContext)
    (src : String) (lineno : Nat)
    (hctx : st.ctx = some c) :
    (update_mode = false →
      (assert_snapshot_impl fs false (some (src, lineno)) serialized (some "") none st).1
          = .error .newInlineSnapshot ∧
      ∃ path snap,
        (assert_snapshot_impl fs false (some (src, lineno)) serialized (some "") none st).2.2
            = [.writePending path snap] ∧
        snap.metadata.inline_source = some src ∧
        snap.metadata.inline_line = some lineno ∧
        snap.content = serialized) ∧
    (update_mode = true →
      (assert_snapshot_impl fs true (some (src, lineno)) serialized (some "") none st).1
          = .ok () ∧
      (assert_snapshot_impl fs true (some (src, lineno)) serialized (some "") none st).2.2
          = [.rewriteInline src lineno serialized]) := by
  have hempty : ("" : String).isEmpty = true := rfl
  constructor
  · intro _
    simp only [assert_snapshot_impl, hctx]
    refine ⟨?_, ?_⟩
    · simp [handle_inline_snapshot, hempty]
    · refine ⟨snapshot_path c.test_file ((fileStem c.test_file).getD "unknown")
        (c.test_name ++ "_inline_" ++ toString lineno), ?_⟩
      simp [handle_inline_snapshot, hempty]
  · intro _
    simp only [assert_snapshot_impl, hctx]
    constructor <;> simp [handle_inline_snapshot, hempty]

/-- C9 witness: the theorem applied at a concrete context and an empty
actual value in non-update mode. -/
theorem c9_empty_inline_witness :
    (assert_snapshot_impl (fun _ => none) false (some ("t.py", 7)) "" (some "") none
        { ctx := some { test_file := "t.py", test_name := "test_a", counter := 0 }
          settingsStack := [] }).1 = .error .newInlineSnapshot :=
  ((c9_empty_inline (fun _ => none) false ""
      { ctx := some { test_file := "t.py", test_name := "test_a", counter := 0 }
        settingsStack := [] }
      { test_file := "t.py", test_name := "test_a", counter := 0 } "t.py" 7 rfl).1 rfl).1

/-! ## Theorems: snapshot assertion outside a test context (C10) -/

/-- C10 counterexample: with no snapshot context installed but both inline
and name supplied, the call raises the mutual-exclusion TypeError, not the
outside-context runtime error the claim promises for every such call. -/
theorem c10_counterexample :
    assert_snapshot_impl (fun _ => none) false none "v" (some "") (some "n")
        { ctx := none, settingsStack := [] }
      = (.error .bothInlineAndName, { ctx := none, settingsStack := [] }, []) ∧
    SnapError.bothInlineAndName ≠ SnapError.outsideContext := by
  exact ⟨rfl, by decide⟩

/-- C10 (amended): with no snapshot context installed, the call performs no
filesystem writes and leaves the state unchanged; it raises the
outside-context runtime error, except that supplying both inline and name
raises the mutual-exclusion TypeError first. -/
theorem c10_outside_context (fs : String → Option SnapshotFile) (update_mode : Bool)
    (ci : Option (String × Nat)) (serialized : String)
    (inline name : Option String) (st : SnapState)
    (hctx : st.ctx = none) :
    (assert_snapshot_impl fs update_mode ci serialized inline name st).2.2 = [] ∧
    (assert_snapshot_impl fs update_mode ci serialized inline name st).2.1 = st ∧
    (¬(inline.isSome = true ∧ name.isSome = true) →
      (assert_snapshot_impl fs update_mode ci serialized inline name st).1
        = .error .outsideContext) ∧
    ((inline.isSome = true ∧ name.isSome = true) →
      (assert_snapshot_impl fs update_mode ci serialized inline name st).1
        = .error .bothInlineAndName) := by
  by_cases hin : inline.isSome = true ∧ name.isSome = true
  · have hb : (inline.isSome && name.isSome) = true := by simp [hin.1, hin.2]
    refine ⟨?_, ?_, fun hc => absurd hin hc, fun _ => ?_⟩ <;>
      simp [assert_snapshot_impl, hb]
  · have hb : (inline.isSome && name.isSome) = false := by
      rcases hi : inline.isSome <;> rcases hn : name.isSome <;> simp_all
    refine ⟨?_, ?_, fun _ => ?_, fun hc => absurd hc hin⟩ <;>
      simp [assert_snapshot_impl, hb, hctx]

/-- C10 witness: the amended theorem applied to a plain call (no inline, no
name) with no context installed. -/
theorem c10_outside_context_witness :
    (assert_snapshot_impl (fun _ => none) false none "v" none none
        { ctx := none, settingsStack := [] }).1 = .error .outsideContext :=
  (c10_outside_context (fun _ => none) false none "v" none none
      { ctx := none, settingsStack := [] } rfl).2.2.1 (by simp)

/-! ## Theorems: snapshot compare/write state machine (C4) -/

/-- Helper: full case analysis of file_snapshot_step, the file-based tail of
assert_snapshot_impl. -/
theorem file_snapshot_step_spec (fs : String → Option SnapshotFile) (update_mode : Bool)
    (ci : Option (String × Nat)) (serialized test_file test_name sname : String) :
    (∀ existing, fs (file_snapshot_target test_file sname) = some existing →
      (strTrimRight existing.content = strTrimRight serialized →
        file_snapshot_step fs update_mode ci serialized test_file test_name sname
          = (.ok (), [])) ∧
      (strTrimRight existing.content ≠ strTrimRight serialized → update_mode = true →
        file_snapshot_step fs update_mode ci serialized test_file test_name sname
          = (.ok (), [.writeSnap (file_snapshot_target test_file sname)
              (file_snapshot_new ci serialized test_file test_name)])) ∧
      (strTrimRight existing.content ≠ strTrimRight serialized → update_mode = false →
        file_snapshot_step fs update_mode ci serialized test_file test_name sname
          = (.error (.mismatch existing.content serialized),
             [.writePending (file_snapshot_target test_file sname)
               (file_snapshot_new ci serialized test_file test_name)]))) ∧
    (fs (file_snapshot_target test_file sname) = none →
      (update_mode = true →
        file_snapshot_step fs update_mode ci serialized test_file test_name sname
          = (.ok (), [.writeSnap (file_snapshot_target test_file sname)
              (file_snapshot_new ci serialized test_file test_name)])) ∧
      (update_mode = false →
        file_snapshot_step fs update_mode ci serialized test_file test_name sname
          = (.error .newSnapshot,
             [.writePending (file_snapshot_target test_file sname)
               (file_snapshot_new ci serialized test_file test_name)]))) := by
  constructor
  · intro existing hex
    refine ⟨fun heq => ?_, fun hne hum => ?_, fun hne hum => ?_⟩
    · simp [file_snapshot_step, hex, heq]
    · simp [file_snapshot_step, hex, hne, hum]
    · simp [file_snapshot_step, hex, hne, hum]
  · intro hnone
    refine ⟨fun hum => ?_, fun hum => ?_⟩
    · simp [file_snapshot_step, hnone, hum]
    · simp [file_snapshot_step, hnone, hum]

/-- Helper: content of the snapshot file written by the file-based branch. -/
theorem file_snapshot_new_content (ci : Option (String × Nat))
    (serialized test_file test_name : String) :
    (file_snapshot_new ci serialized test_file test_name).content = serialized := rfl

/-- Helper: with a context installed and the unnamed-counter guard passing,
assert_snapshot_impl with no inline argument reduces to file_snapshot_step
at some snapshot name. -/
theorem assert_impl_file_eq (fs : String → Option SnapshotFile) (update_mode : Bool)
    (ci : Option (String × Nat)) (serialized : String) (name : Option String)
    (st : SnapState) (c : SnapshotContext)
    (hctx : st.ctx = some c)
    (hguard : name.isSome = true ∨ c.counter = 0 ∨
      is_allow_duplicates_active st.settingsStack = true) :
    ∃ sname st',
      assert_snapshot_impl fs update_mode ci serialized none name st
        = ((file_snapshot_step fs update_mode ci serialized c.test_file c.test_name sname).1,
           st',
           (file_snapshot_step fs update_mode ci serialized c.test_file c.test_name sname).2) := by
  rcases name with _ | custom
  · have hg : (c.counter > 0 && !is_allow_duplicates_active st.settingsStack) = false := by
      rcases hguard with h | h | h
      · simp at h
      · simp [h]
      · simp [h]
    refine ⟨compute_snapshot_name c.test_name c.counter
      (is_allow_duplicates_active st.settingsStack),
      { st with ctx := some { c with counter := c.counter + 1 } }, ?_⟩
    rcases hstep : file_snapshot_step fs update_mode ci serialized c.test_file c.test_name
      (compute_snapshot_name c.test_name c.counter
        (is_allow_duplicates_active st.settingsStack)) with ⟨r, ws⟩
    simp [assert_snapshot_impl, hctx, hg, hstep]
  · refine ⟨compute_named_snapshot c.test_name custom, st, ?_⟩
    rcases hstep : file_snapshot_step fs update_mode ci serialized c.test_file c.test_name
      (compute_named_snapshot c.test_name custom) with ⟨r, ws⟩
    simp [assert_snapshot_impl, hctx, hstep]

/-- C4: the compare/write state machine of file-based snapshot assertion.
With a context installed and the unnamed-counter guard passing, there is a
target path such that: if a .snap exists there with content equal to the new
content after trimming trailing whitespace, the call succeeds with no write;
on inequality, update mode overwrites the .snap and succeeds, and non-update
mode writes a .snap.new pending file and raises a mismatch error carrying
both contents for the diff; if no .snap exists, update mode writes the .snap
and succeeds and non-update mode writes the .snap.new and raises the
new-snapshot error. Every file written carries the serialized content. -/
theorem c4_snapshot_state_machine (fs : String → Option SnapshotFile) (update_mode : Bool)
    (ci : Option (String × Nat)) (serialized : String) (name : Option String)
    (st : SnapState) (c : SnapshotContext)
    (hctx : st.ctx = some c)
    (hguard : name.isSome = true ∨ c.counter = 0 ∨
      is_allow_duplicates_active st.settingsStack = true) :
    ∃ path : String,
      (∀ existing, fs path = some existing →
        (strTrimRight existing.content = strTrimRight serialized →
          (assert_snapshot_impl fs update_mode ci serialized none name st).1 = .ok () ∧
          (assert_snapshot_impl fs update_mode ci serialized none name st).2.2 = []) ∧
        (strTrimRight existing.content ≠ strTrimRight serialized → update_mode = true →
          ∃ snap, snap.content = serialized ∧
            (assert_snapshot_impl fs update_mode ci serialized none name st).1 = .ok () ∧
            (assert_snapshot_impl fs update_mode ci serialized none name st).2.2
              = [.writeSnap path snap]) ∧
        (strTrimRight existing.content ≠ strTrimRight serialized → update_mode = false →
          ∃ snap, snap.content = serialized ∧
            (assert_snapshot_impl fs update_mode ci serialized none name st).1
              = .error (.mismatch existing.content serialized) ∧
            (assert_snapshot_impl fs update_mode ci serialized none name st).2.2
              = [.writePending path snap])) ∧
      (fs path = none →
        (update_mode = true →
          ∃ snap, snap.content = serialized ∧
            (assert_snapshot_impl fs update_mode ci serialized none name st).1 = .ok () ∧
            (assert_snapshot_impl fs update_mode ci serialized none name st).2.2
              = [.writeSnap path snap]) ∧
        (update_mode = false →
          ∃ snap, snap.content = serialized ∧
            (assert_snapshot_impl fs update_mode ci serialized none name st).1
              = .error .newSnapshot ∧
            (assert_snapshot_impl fs update_mode ci serialized none name st).2.2
              = [.writePending path snap])) := by
  obtain ⟨sname, st', himpl⟩ :=
    assert_impl_file_eq fs update_mode ci serialized name st c hctx hguard
  obtain ⟨hsome, hnone⟩ :=
    file_snapshot_step_spec fs update_mode ci serialized c.test_file c.test_name sname
  refine ⟨file_snapshot_target c.test_file sname, fun existing hex => ?_, fun hn => ?_⟩
  · obtain ⟨h1, h2, h3⟩ := hsome existing hex
    refine ⟨fun heq => ?_, fun hne hum => ?_, fun hne hum => ?_⟩
    · rw [himpl, h1 heq]
      exact ⟨rfl, rfl⟩
    · exact ⟨file_snapshot_new ci serialized c.test_file c.test_name,
        file_snapshot_new_content ci serialized c.test_file c.test_name,
        by rw [himpl, h2 hne hum], by rw [himpl, h2 hne hum]⟩
    · exact ⟨file_snapshot_new ci serialized c.test_file c.test_name,
        file_snapshot_new_content ci serialized c.test_file c.test_name,
        by rw [himpl, h3 hne hum], by rw [himpl, h3 hne hum]⟩
  · obtain ⟨h1, h2⟩ := hnone hn
    refine ⟨fun hum => ?_, fun hum => ?_⟩
    · exact ⟨file_snapshot_new ci serialized c.test_file c.test_name,
        file_snapshot_new_content ci serialized c.test_file c.test_name,
        by rw [himpl, h1 hum], by rw [himpl, h1 hum]⟩
    · exact ⟨file_snapshot_new ci serialized c.test_file c.test_name,
        file_snapshot_new_content ci serialized c.test_file c.test_name,
        by rw [himpl, h2 hum], by rw [himpl, h2 hum]⟩

/-- C4 witness: the theorem applied at a concrete context with counter 0,
discharging both hypotheses. -/
theorem c4_snapshot_state_machine_witness :
    (∃ path : String,
      (∀ existing, c7fs path = some existing →
        (strTrimRight existing.content = strTrimRight "x" →
          (assert_snapshot_impl c7fs false none "x" none none
            { ctx := some { test_file := "t.py", test_name := "test_a", counter := 0 }
              settingsStack := [] }).1 = .ok () ∧
          (assert_snapshot_impl c7fs false none "x" none none
            { ctx := some { test_file := "t.py", test_name := "test_a", counter := 0 }
              settingsStack := [] }).2.2 = []) ∧
        (strTrimRight existing.content ≠ strTrimRight "x" → false = true →
          ∃ snap, snap.content = "x" ∧
            (assert_snapshot_impl c7fs false none "x" none none
              { ctx := some { test_file := "t.py", test_name := "test_a", counter := 0 }
                settingsStack := [] }).1 = .ok () ∧
            (assert_snapshot_impl c7fs false none "x" none none
              { ctx := some { test_file := "t.py", test_name := "test_a", counter := 0 }
                settingsStack := [] }).2.2 = [.writeSnap path snap]) ∧
        (strTrimRight existing.content ≠ strTrimRight "x" → false = false →
          ∃ snap, snap.content = "x" ∧
            (assert_snapshot_impl c7fs false none "x" none none
              { ctx := some { test_file := "t.py", test_name := "test_a", counter := 0 }
                settingsStack := [] }).1 = .error (.mismatch existing.content "x") ∧
            (assert_snapshot_impl c7fs false none "x" none none
              { ctx := some { test_file := "t.py", test_name := "test_a", counter := 0 }
                settingsStack := [] }).2.2 = [.writePending path snap])) ∧
      (c7fs path = none →
        (false = true →
          ∃ snap, snap.content = "x" ∧
            (assert_snapshot_impl c7fs false none "x" none none
              { ctx := some { test_file := "t.py", test_name := "test_a", counter := 0 }
                settingsStack := [] }).1 = .ok () ∧
            (assert_snapshot_impl c7fs false none "x" none none
              { ctx := some { test_file := "t.py", test_name := "test_a", counter := 0 }
                settingsStack := [] }).2.2 = [.writeSnap path snap]) ∧
        (false = false →
          ∃ snap, snap.content = "x" ∧
            (assert_snapshot_impl c7fs false none "x" none none
              { ctx := some { test_file := "t.py", test_name := "test_a", counter := 0 }
                settingsStack := [] }).1 = .error .newSnapshot ∧
            (assert_snapshot_impl c7fs false none "x" none none
              { ctx := some { test_file := "t.py", test_name := "test_a", counter := 0 }
                settingsStack := [] }).2.2 = [.writePending path snap]))) :=
  c4_snapshot_state_machine c7fs false none "x" none
    { ctx := some { test_file := "t.py", test_name := "test_a", counter := 0 }
      settingsStack := [] }
    { test_file := "t.py", test_name := "test_a", counter := 0 }
    rfl (Or.inr (Or.inl rfl))

/-- C6 witness: the theorem applied to a concrete sync finalizer whose
generator raises at teardown. -/
theorem c6_finalizer_outcomes_witness :
    finalizer_run
        { syncStep := fun _ => .raised "boom", asyncStep := fun _ => .yielded }
        { is_async := false, scope := .Module, fixture_name := some "f" }
      = some ("Failed to reset fixture: " ++ "boom") :=
  ((c6_finalizer_outcomes
      { syncStep := fun _ => .raised "boom", asyncStep := fun _ => .yielded }
      { is_async := false, scope := .Module, fixture_name := some "f" } "f" rfl).1.1
    rfl).2.2 "boom" rfl

/-! ## Lemmas about the fixture runner -/

/-- Helper: counting invocations distributes over trace concatenation. -/
theorem countInvoke_append (k : String × FixtureScope) (a b : List RunEvent) :
    countInvoke k (a ++ b) = countInvoke k a + countInvoke k b := by
  simp [countInvoke, List.count_append]

/-- Helper: counting an invocation of the key itself. -/
theorem countInvoke_single_eq (k : String × FixtureScope) :
    countInvoke k [RunEvent.invokeFixture k.1 k.2] = 1 := by
  simp [countInvoke]

/-- Helper: counting an invocation of a different key. -/
theorem countInvoke_single_ne {k : String × FixtureScope} {name : String}
    {scope : FixtureScope} (h : ¬(name = k.1 ∧ scope = k.2)) :
    countInvoke k [RunEvent.invokeFixture name scope] = 0 := by
  simp only [countInvoke]
  rw [List.count_eq_zero]
  simp only [List.mem_singleton]
  intro he
  injection he with h1 h2
  exact h ⟨h1.symm, h2.symm⟩

/-- Helper: a trace with no invokeFixture events counts zero. -/
theorem countInvoke_eq_zero_of_no_invoke {k : String × FixtureScope}
    {tr : List RunEvent}
    (h : ∀ ev ∈ tr, ∀ name scope, ev ≠ RunEvent.invokeFixture name scope) :
    countInvoke k tr = 0 := by
  simp only [countInvoke]
  rw [List.count_eq_zero]
  intro hmem
  exact h _ hmem k.1 k.2 rfl

/-- Helper: cache lookup through a cons. -/
theorem cacheGet_cons (k' : String × FixtureScope) (v : Nat)
    (rest : List ((String × FixtureScope) × Nat)) (k : String × FixtureScope) :
    cacheGet ((k', v) :: rest) k = if k' = k then some v else cacheGet rest k := rfl

/-- Helper: clearing another scope does not affect the key. -/
theorem cacheGet_clearScope_ne {k : String × FixtureScope}
    (cache : List ((String × FixtureScope) × Nat)) {scope : FixtureScope}
    (h : scope ≠ k.2) : cacheGet (cacheClearScope cache scope) k = cacheGet cache k := by
  induction cache with
  | nil => rfl
  | cons entry rest ih =>
    obtain ⟨k', v⟩ := entry
    simp only [cacheClearScope, List.filter_cons] at ih ⊢
    by_cases hsc : k'.2 = scope
    · have hcond : (decide ¬(((k', v) : (String × FixtureScope) × Nat).1.2 = scope)) = false := by
        simp [hsc]
      rw [hcond]
      simp only [Bool.false_eq_true, if_false]
      have hk : k' ≠ k := by
        intro he
        rw [he] at hsc
        exact h hsc.symm
      rw [ih, cacheGet_cons, if_neg hk]
    · have hcond : (decide ¬(((k', v) : (String × FixtureScope) × Nat).1.2 = scope)) = true := by
        simp [hsc]
      rw [hcond]
      simp only [if_true]
      rw [cacheGet_cons, cacheGet_cons]
      split
      · rfl
      · exact ih

/-- Trace shape of run_fixture_post: the dependency trace, possibly
followed by one invocation of the fixture itself. -/
theorem run_fixture_post_trace (env : GuestEnv) (f : Fixture)
    (dr : Except String Unit × RunnerState × List RunEvent) :
    (run_fixture_post env f dr).2.2 = dr.2.2 ∨
    (run_fixture_post env f dr).2.2
      = dr.2.2 ++ [RunEvent.invokeFixture f.function_name f.scope] := by
  obtain ⟨r, st1, tr1⟩ := dr
  match r with
  | .error e => exact Or.inl rfl
  | .ok _ =>
    rcases hcall : fixture_call env f with e | c
    · right
      simp [run_fixture_post, hcall]
    · rcases hget : get_value_and_finalizer env f c with e | ⟨value, fin⟩
      · right
        simp [run_fixture_post, hcall, hget]
      · rcases fin with _ | fin
        · right
          simp [run_fixture_post, hcall, hget]
        · by_cases hsc : fin.scope = FixtureScope.Function
          · right
            simp [run_fixture_post, hcall, hget, hsc]
          · right
            simp [run_fixture_post, hcall, hget, if_neg hsc]

/-- Fixture-cache shape of run_fixture_post: unchanged, or the fixture's
own key pushed at the front. -/
theorem run_fixture_post_cache (env : GuestEnv) (f : Fixture)
    (dr : Except String Unit × RunnerState × List RunEvent) :
    (run_fixture_post env f dr).2.1.fixture_cache = dr.2.1.fixture_cache ∨
    ∃ v, (run_fixture_post env f dr).2.1.fixture_cache
      = ((f.function_name, f.scope), v) :: dr.2.1.fixture_cache := by
  obtain ⟨r, st1, tr1⟩ := dr
  match r with
  | .error e => exact Or.inl rfl
  | .ok _ =>
    rcases hcall : fixture_call env f with e | c
    · left
      simp [run_fixture_post, hcall]
    · rcases hget : get_value_and_finalizer env f c with e | ⟨value, fin⟩
      · left
        simp [run_fixture_post, hcall, hget]
      · rcases hud : f.is_user_defined
        · left
          rcases fin with _ | fin
          · simp [run_fixture_post, hcall, hget, hud]
          · by_cases hsc : fin.scope = FixtureScope.Function
            · simp [run_fixture_post, hcall, hget, hud, hsc]
            · simp [run_fixture_post, hcall, hget, hud, if_neg hsc]
        · right
          refine ⟨value, ?_⟩
          rcases fin with _ | fin
          · simp [run_fixture_post, hcall, hget, hud]
          · by_cases hsc : fin.scope = FixtureScope.Function
            · simp [run_fixture_post, hcall, hget, hud, hsc]
            · simp [run_fixture_post, hcall, hget, hud, if_neg hsc]

/-- Finalizer-cache shape of run_fixture_post: it only grows. -/
theorem run_fixture_post_fin (env : GuestEnv) (f : Fixture)
    (dr : Except String Unit × RunnerState × List RunEvent) :
    ∃ added, (run_fixture_post env f dr).2.1.finalizer_cache
      = dr.2.1.finalizer_cache ++ added := by
  obtain ⟨r, st1, tr1⟩ := dr
  match r with
  | .error e => exact ⟨[], by simp [run_fixture_post]⟩
  | .ok _ =>
    rcases hcall : fixture_call env f with e | c
    · exact ⟨[], by simp [run_fixture_post, hcall]⟩
    · rcases hget : get_value_and_finalizer env f c with e | ⟨value, fin⟩
      · exact ⟨[], by simp [run_fixture_post, hcall, hget]⟩
      · rcases fin with _ | fin
        · refine ⟨[], ?_⟩
          rcases hud : f.is_user_defined <;>
            simp [run_fixture_post, hcall, hget, hud]
        · by_cases hsc : fin.scope = FixtureScope.Function
          · refine ⟨[], ?_⟩
            rcases hud : f.is_user_defined <;>
              simp [run_fixture_post, hcall, hget, hud, hsc]
          · refine ⟨[fin], ?_⟩
            rcases hud : f.is_user_defined <;>
              simp [run_fixture_post, hcall, hget, hud, if_neg hsc]

/-- Successful post-processing of a user-defined fixture caches its value
at the front of the cache and emits exactly one invocation. -/
theorem run_fixture_post_success (env : GuestEnv) (f : Fixture) (st1 : RunnerState)
    (tr1 : List RunEvent) {c value : Nat} {fin : Option Finalizer}
    (hcall : fixture_call env f = .ok c)
    (hget : get_value_and_finalizer env f c = .ok (value, fin))
    (hud : f.is_user_defined = true) :
    (run_fixture_post env f (.ok (), st1, tr1)).2.1.fixture_cache
      = ((f.function_name, f.scope), value) :: st1.fixture_cache ∧
    (run_fixture_post env f (.ok (), st1, tr1)).2.2
      = tr1 ++ [RunEvent.invokeFixture f.function_name f.scope] := by
  rcases fin with _ | fin
  · simp [run_fixture_post, hcall, hget, hud]
  · by_cases hsc : fin.scope = FixtureScope.Function
    · simp [run_fixture_post, hcall, hget, hud, hsc]
    · simp [run_fixture_post, hcall, hget, hud, if_neg hsc]

mutual
/-- A fixture tree that does not mention the key never invokes it. -/
theorem run_fixture_no_mention (env : GuestEnv) (k : String × FixtureScope)
    (f : Fixture) (hm : mentions_key k f = false) (st : RunnerState) :
    countInvoke k (run_fixture env f st).2.2 = 0 := by
  match f with
  | .userDefined name scope is_generator is_async deps =>
    simp only [mentions_key, Bool.or_eq_false_iff, Bool.and_eq_false_iff] at hm
    simp only [run_fixture]
    rcases hhit : cacheGet st.fixture_cache
        (Fixture.function_name (.userDefined name scope is_generator is_async deps),
         Fixture.scope (.userDefined name scope is_generator is_async deps)) with _ | cached
    · have hdeps := run_fixture_deps_no_mention env k deps hm.2 st
      rcases run_fixture_post_trace env
        (.userDefined name scope is_generator is_async deps)
        (run_fixture_deps env deps st) with htr | htr <;> rw [htr]
      · exact hdeps
      · rw [countInvoke_append, hdeps, countInvoke_single_ne (by
          simp only [Fixture.function_name, Fixture.scope]
          intro hc
          rcases hm.1 with h | h <;> simp only [decide_eq_false_iff_not] at h
          · exact absurd hc.1 h
          · exact absurd hc.2 h)]
    · simp [countInvoke]
  | .builtIn name scope has_finalizer deps =>
    simp only [mentions_key, Bool.or_eq_false_iff, Bool.and_eq_false_iff] at hm
    simp only [run_fixture]
    rcases hhit : cacheGet st.fixture_cache
        (Fixture.function_name (.builtIn name scope has_finalizer deps),
         Fixture.scope (.builtIn name scope has_finalizer deps)) with _ | cached
    · have hdeps := run_fixture_deps_no_mention env k deps hm.2 st
      rcases run_fixture_post_trace env
        (.builtIn name scope has_finalizer deps)
        (run_fixture_deps env deps st) with htr | htr <;> rw [htr]
      · exact hdeps
      · rw [countInvoke_append, hdeps, countInvoke_single_ne (by
          simp only [Fixture.function_name, Fixture.scope]
          intro hc
          rcases hm.1 with h | h <;> simp only [decide_eq_false_iff_not] at h
          · exact absurd hc.1 h
          · exact absurd hc.2 h)]
    · simp [countInvoke]

/-- Dependency lists that do not mention the key never invoke it. -/
theorem run_fixture_deps_no_mention (env : GuestEnv) (k : String × FixtureScope)
    (fs : List Fixture) (hm : mentions_key_list k fs = false) (st : RunnerState) :
    countInvoke k (run_fixture_deps env fs st).2.2 = 0 := by
  match fs with
  | [] => simp [run_fixture_deps, countInvoke]
  | dep :: rest =>
    simp only [mentions_key_list, Bool.or_eq_false_iff] at hm
    simp only [run_fixture_deps]
    rcases hrun : run_fixture env dep st with ⟨r, st1, tr1⟩
    have hdep : countInvoke k tr1 = 0 := by
      have := run_fixture_no_mention env k dep hm.1 st
      rw [hrun] at this
      exact this
    match r with
    | .error e => exact hdep
    | .ok (v, fin) =>
      rcases fin with _ | fin
      · rcases hrest : run_fixture_deps env rest st1 with ⟨r3, st3, tr3⟩
        have h3 := run_fixture_deps_no_mention env k rest hm.2 st1
        rw [hrest] at h3
        simp [countInvoke_append, hdep, hrest, h3]
      · rcases hrest : run_fixture_deps env rest
            { st1 with finalizer_cache := st1.finalizer_cache ++ [fin] } with ⟨r3, st3, tr3⟩
        have h3 := run_fixture_deps_no_mention env k rest hm.2
            { st1 with finalizer_cache := st1.finalizer_cache ++ [fin] }
        rw [hrest] at h3
        simp [countInvoke_append, hdep, hrest, h3]
end

/-- Memo steps compose: sequencing two operations that each respect the
memoization discipline for a key again respects it. -/
theorem MemoStep_trans {k : String × FixtureScope}
    {fc0 fc1 fc2 : List ((String × FixtureScope) × Nat)}
    {tr1 tr2 : List RunEvent}
    (h1 : MemoStep k fc0 fc1 tr1) (h2 : MemoStep k fc1 fc2 tr2) :
    MemoStep k fc0 fc2 (tr1 ++ tr2) := by
  obtain ⟨p1, z1, l1, i1⟩ := h1
  obtain ⟨p2, z2, l2, i2⟩ := h2
  refine ⟨fun v hv => p2 v (p1 v hv), ?_, ?_, ?_⟩
  · intro hs
    rw [countInvoke_append]
    rcases Option.isSome_iff_exists.mp hs with ⟨v, hv⟩
    have hv1 := p1 v hv
    have hz2 := z2 (by rw [hv1]; rfl)
    rw [z1 hs, hz2]
  · rw [countInvoke_append]
    by_cases h : 1 ≤ countInvoke k tr1
    · have hz2 := z2 (i1 h)
      omega
    · omega
  · intro h12
    rw [countInvoke_append] at h12
    by_cases h : 1 ≤ countInvoke k tr2
    · exact i2 h
    · have h1' : 1 ≤ countInvoke k tr1 := by omega
      rcases Option.isSome_iff_exists.mp (i1 h1') with ⟨v, hv⟩
      rw [p2 v hv]
      rfl

/-- Cleaning up a scope other than the key's own is a memo step: the key's
cache entry survives and only finalizer events are emitted. -/
theorem MemoStep_clean (st : RunnerState) {k : String × FixtureScope}
    {scope : FixtureScope} (h : scope ≠ k.2) :
    MemoStep k st.fixture_cache (clean_up_scope st scope).1.fixture_cache
      (clean_up_scope st scope).2 := by
  have hfc : (clean_up_scope st scope).1.fixture_cache
      = cacheClearScope st.fixture_cache scope := rfl
  have htr : (clean_up_scope st scope).2
      = ((st.finalizer_cache.filter (fun f => f.scope = scope)).reverse).map
          (fun f => RunEvent.runFinalizer f) := rfl
  have hcount : countInvoke k (clean_up_scope st scope).2 = 0 := by
    rw [htr]
    refine countInvoke_eq_zero_of_no_invoke ?_
    intro ev hmem name scope'
    rcases List.mem_map.mp hmem with ⟨fin, _, hev⟩
    rw [← hev]
    intro he
    exact RunEvent.noConfusion he
  refine ⟨?_, ?_, ?_, ?_⟩
  · intro v hv
    rw [hfc, cacheGet_clearScope_ne st.fixture_cache h]
    exact hv
  · intro _
    exact hcount
  · rw [hcount]
    omega
  · intro h1
    rw [hcount] at h1
    omega

/-- Transfer of a memo step through the fixture tail for a fixture whose
own key differs from the tracked key: the tail adds at most an invocation
of and a cache entry for its own key, neither of which touches the
tracked key. -/
theorem MemoStep_post_ne (env : GuestEnv) (f : Fixture)
    (dr : Except String Unit × RunnerState × List RunEvent)
    {k : String × FixtureScope}
    {fc0 : List ((String × FixtureScope) × Nat)}
    (hne : ¬(f.function_name = k.1 ∧ f.scope = k.2))
    (h : MemoStep k fc0 dr.2.1.fixture_cache dr.2.2) :
    MemoStep k fc0 (run_fixture_post env f dr).2.1.fixture_cache
      (run_fixture_post env f dr).2.2 := by
  obtain ⟨hpre, hzero, hle, hinv⟩ := h
  have hkeyne : ((f.function_name, f.scope) : String × FixtureScope) ≠ k := by
    intro he
    exact hne ⟨congrArg Prod.fst he, congrArg Prod.snd he⟩
  have hcget : cacheGet (run_fixture_post env f dr).2.1.fixture_cache k
      = cacheGet dr.2.1.fixture_cache k := by
    rcases run_fixture_post_cache env f dr with hc | ⟨v, hc⟩
    · rw [hc]
    · rw [hc, cacheGet_cons, if_neg hkeyne]
  have hcount : countInvoke k (run_fixture_post env f dr).2.2
      = countInvoke k dr.2.2 := by
    rcases run_fixture_post_trace env f dr with ht | ht
    · rw [ht]
    · rw [ht, countInvoke_append, countInvoke_single_ne hne]
      omega
  refine ⟨?_, ?_, ?_, ?_⟩
  · intro v hv
    rw [hcget]
    exact hpre v hv
  · intro hs
    rw [hcount]
    exact hzero hs
  · rw [hcount]
    exact hle
  · intro h1
    rw [hcount] at h1
    rw [hcget]
    exact hinv h1

mutual
/-- A run of one fixture tree admissible for the key is a memo step. -/
theorem run_fixture_memo_inv (env : GuestEnv) (k : String × FixtureScope)
    (f : Fixture) (hok : fixture_key_ok env k f) (st : RunnerState) :
    MemoStep k st.fixture_cache (run_fixture env f st).2.1.fixture_cache
      (run_fixture env f st).2.2 := by
  match f with
  | .userDefined name scope is_generator is_async deps =>
    simp only [fixture_key_ok] at hok
    simp only [run_fixture]
    rcases hhit : cacheGet st.fixture_cache
        (Fixture.function_name (.userDefined name scope is_generator is_async deps),
         Fixture.scope (.userDefined name scope is_generator is_async deps)) with _ | cached
    · by_cases hk : name = k.1 ∧ scope = k.2
      · have hkey : ((name, scope) : String × FixtureScope) = k := by
          rw [hk.1, hk.2]
        obtain ⟨hmdeps, c, hcall, value, fin, hget⟩ := hok.1 hk
        have hnone : cacheGet st.fixture_cache k = none := by
          simp only [Fixture.function_name, Fixture.scope] at hhit
          rw [← hkey]
          exact hhit
        have hdepzero : countInvoke k
            (run_fixture_deps env deps st).2.2 = 0 :=
          run_fixture_deps_no_mention env k deps hmdeps st
        rcases hdr : run_fixture_deps env deps st with ⟨r1, st1, tr1⟩
        rw [hdr] at hdepzero
        have hdz : countInvoke k tr1 = 0 := hdepzero
        match r1 with
        | .error e =>
          refine ⟨?_, ?_, ?_, ?_⟩
          · intro v hv
            rw [hnone] at hv
            exact Option.noConfusion hv
          · intro hs
            rw [hnone] at hs
            exact absurd hs (by simp)
          · simp only [run_fixture_post]
            rw [hdz]
            omega
          · intro h1
            simp only [run_fixture_post] at h1
            rw [hdz] at h1
            exact absurd h1 (by decide)
        | .ok u =>
          have hcall' : fixture_call env
              (.userDefined name scope is_generator is_async deps) = .ok c := hcall
          have hpost := run_fixture_post_success env
            (.userDefined name scope is_generator is_async deps) st1 tr1 hcall' hget rfl
          refine ⟨?_, ?_, ?_, ?_⟩
          · intro v hv
            rw [hnone] at hv
            exact Option.noConfusion hv
          · intro hs
            rw [hnone] at hs
            exact absurd hs (by simp)
          · rw [hpost.2, countInvoke_append, hdz]
            simp only [Fixture.function_name, Fixture.scope]
            rw [show RunEvent.invokeFixture name scope
                = RunEvent.invokeFixture k.1 k.2 by rw [hk.1, hk.2]]
            rw [countInvoke_single_eq]
          · intro _
            rw [hpost.1]
            simp only [Fixture.function_name, Fixture.scope]
            rw [cacheGet_cons, if_pos hkey]
            rfl
      · have hlist := hok.2
        have hdeps := run_fixture_deps_memo_inv env k deps hlist st
        exact MemoStep_post_ne env (.userDefined name scope is_generator is_async deps)
          (run_fixture_deps env deps st) hk hdeps
    · refine ⟨fun v hv => hv, fun _ => rfl, ?_, ?_⟩
      · simp [countInvoke]
      · intro h1
        simp [countInvoke] at h1
  | .builtIn name scope has_finalizer deps =>
    simp only [fixture_key_ok] at hok
    simp only [run_fixture]
    rcases hhit : cacheGet st.fixture_cache
        (Fixture.function_name (.builtIn name scope has_finalizer deps),
         Fixture.scope (.builtIn name scope has_finalizer deps)) with _ | cached
    · have hdeps := run_fixture_deps_memo_inv env k deps hok.2 st
      exact MemoStep_post_ne env (.builtIn name scope has_finalizer deps)
        (run_fixture_deps env deps st) hok.1 hdeps
    · refine ⟨fun v hv => hv, fun _ => rfl, ?_, ?_⟩
      · simp [countInvoke]
      · intro h1
        simp [countInvoke] at h1

/-- A run of an admissible dependency list is a memo step. -/
theorem run_fixture_deps_memo_inv (env : GuestEnv) (k : String × FixtureScope)
    (fs : List Fixture) (hok : fixture_key_ok_list env k fs) (st : RunnerState) :
    MemoStep k st.fixture_cache (run_fixture_deps env fs st).2.1.fixture_cache
      (run_fixture_deps env fs st).2.2 := by
  match fs with
  | [] =>
    refine ⟨fun v hv => hv, fun _ => rfl, ?_, ?_⟩
    · simp [run_fixture_deps, countInvoke]
    · intro h1
      simp [run_fixture_deps, countInvoke] at h1
  | dep :: rest =>
    simp only [fixture_key_ok_list] at hok
    simp only [run_fixture_deps]
    rcases hrun : run_fixture env dep st with ⟨r, st1, tr1⟩
    have h1 := run_fixture_memo_inv env k dep hok.1 st
    rw [hrun] at h1
    match r with
    | .error e => exact h1
    | .ok (v, fin) =>
      rcases fin with _ | fin
      · dsimp only
        rcases hrest : run_fixture_deps env rest st1 with ⟨r3, st3, tr3⟩
        have h2 := run_fixture_deps_memo_inv env k rest hok.2 st1
        rw [hrest] at h2
        exact MemoStep_trans h1 h2
      · dsimp only
        rcases hrest : run_fixture_deps env rest
            { st1 with finalizer_cache := st1.finalizer_cache ++ [fin] } with ⟨r3, st3, tr3⟩
        have h2 := run_fixture_deps_memo_inv env k rest hok.2
            { st1 with finalizer_cache := st1.finalizer_cache ++ [fin] }
        rw [hrest] at h2
        exact MemoStep_trans h1 h2
end

/-- A whole admissible span is a memo step for the key. -/
theorem run_span_memo (env : GuestEnv) (k : String × FixtureScope)
    (ops : List SpanOp) : ∀ st : RunnerState, span_key_ok env k ops →
    MemoStep k st.fixture_cache (run_span env ops st).1.fixture_cache
      (run_span env ops st).2 := by
  induction ops with
  | nil =>
    intro st _
    refine ⟨fun v hv => hv, fun _ => rfl, ?_, ?_⟩
    · simp [run_span, countInvoke]
    · intro h1
      simp [run_span, countInvoke] at h1
  | cons op rest ih =>
    intro st hok
    match op with
    | .runFix f =>
      obtain ⟨hf, hrest⟩ := hok
      simp only [run_span]
      rcases hrun : run_fixture env f st with ⟨r, st1, tr1⟩
      have h1 := run_fixture_memo_inv env k f hf st
      rw [hrun] at h1
      dsimp only
      rcases hspan : run_span env rest st1 with ⟨st2, tr2⟩
      have h2 := ih st1 hrest
      rw [hspan] at h2
      exact MemoStep_trans h1 h2
    | .cleanScope scope =>
      obtain ⟨hs, hrest⟩ := hok
      simp only [run_span]
      rcases hcl : clean_up_scope st scope with ⟨st1, tr1⟩
      have h1 := MemoStep_clean st hs
      rw [hcl] at h1
      dsimp only
      rcases hspan : run_span env rest st1 with ⟨st2, tr2⟩
      have h2 := ih st1 hrest
      rw [hspan] at h2
      exact MemoStep_trans h1 h2

/-- **C1**: Fixture memoization. For the cache key k = (name, scope) of a
user-defined fixture, across the active span of one scope-S container —
arbitrary run_fixture calls whose fixture trees are admissible for the key,
with cleanups only of other scopes — the fixture's callable is invoked at
most once (MemoStep's third component); once a value for the key is cached
it is never invoked again and the cache entry survives the span (first two
components); an invocation leaves the key cached (fourth component); and
every run_fixture call for a key that is cached returns the cached value
with no finalizer, emits no events, and leaves the state untouched. -/
theorem c1_fixture_memoization (env : GuestEnv) (k : String × FixtureScope)
    (ops : List SpanOp) (st : RunnerState) (hok : span_key_ok env k ops) :
    MemoStep k st.fixture_cache (run_span env ops st).1.fixture_cache
      (run_span env ops st).2 ∧
    (∀ (f : Fixture) (v : Nat) (st' : RunnerState),
      f.function_name = k.1 → f.scope = k.2 →
      cacheGet st'.fixture_cache k = some v →
      run_fixture env f st' = (.ok (v, none), st', [])) := by
  refine ⟨run_span_memo env k ops st hok, ?_⟩
  intro f v st' h1 h2 hget
  match f with
  | .userDefined name scope g a deps =>
    simp only [Fixture.function_name] at h1
    simp only [Fixture.scope] at h2
    subst h1
    subst h2
    simp only [run_fixture, Fixture.function_name, Fixture.scope]
    rw [show ((k.1, k.2) : String × FixtureScope) = k from rfl, hget]
  | .builtIn name scope hf deps =>
    simp only [Fixture.function_name] at h1
    simp only [Fixture.scope] at h2
    subst h1
    subst h2
    simp only [run_fixture, Fixture.function_name, Fixture.scope]
    rw [show ((k.1, k.2) : String × FixtureScope) = k from rfl, hget]

/-- Witness for C1: the module-scope fixture of c1ops is requested by two
tests with a Function-scope cleanup in between. -/
theorem c1_fixture_memoization_witness :
    span_key_ok envA ("db", FixtureScope.Module) c1ops ∧
    (MemoStep ("db", FixtureScope.Module) st0.fixture_cache
      (run_span envA c1ops st0).1.fixture_cache (run_span envA c1ops st0).2 ∧
     ∀ (f : Fixture) (v : Nat) (st' : RunnerState),
       f.function_name = ("db", FixtureScope.Module).1 →
       f.scope = ("db", FixtureScope.Module).2 →
       cacheGet st'.fixture_cache ("db", FixtureScope.Module) = some v →
       run_fixture envA f st' = (.ok (v, none), st', [])) := by
  have hok : span_key_ok envA ("db", FixtureScope.Module) c1ops :=
    ⟨⟨fun _ => ⟨rfl, 7, rfl, 7, none, rfl⟩, trivial⟩, by decide,
     ⟨fun _ => ⟨rfl, 7, rfl, 7, none, rfl⟩, trivial⟩, trivial⟩
  exact ⟨hok, c1_fixture_memoization envA ("db", FixtureScope.Module) c1ops st0 hok⟩

/-! ## Lemmas about teardown order -/

mutual
/-- Running a fixture tree never runs a finalizer. -/
theorem run_fixture_no_finrun (env : GuestEnv) (f : Fixture) (st : RunnerState) :
    ∀ ev ∈ (run_fixture env f st).2.2, ∀ fin, ev ≠ RunEvent.runFinalizer fin := by
  match f with
  | .userDefined name scope is_generator is_async deps =>
    simp only [run_fixture]
    rcases hhit : cacheGet st.fixture_cache
        (Fixture.function_name (.userDefined name scope is_generator is_async deps),
         Fixture.scope (.userDefined name scope is_generator is_async deps)) with _ | cached
    · intro ev hmem fin
      have hdeps := run_fixture_deps_no_finrun env deps st
      rcases run_fixture_post_trace env
          (.userDefined name scope is_generator is_async deps)
          (run_fixture_deps env deps st) with htr | htr
      · rw [htr] at hmem
        exact hdeps ev hmem fin
      · rw [htr] at hmem
        rcases List.mem_append.mp hmem with hmem' | hmem'
        · exact hdeps ev hmem' fin
        · rw [List.mem_singleton.mp hmem']
          intro he
          exact RunEvent.noConfusion he
    · intro ev hmem fin
      exact absurd hmem (List.not_mem_nil ev)
  | .builtIn name scope has_finalizer deps =>
    simp only [run_fixture]
    rcases hhit : cacheGet st.fixture_cache
        (Fixture.function_name (.builtIn name scope has_finalizer deps),
         Fixture.scope (.builtIn name scope has_finalizer deps)) with _ | cached
    · intro ev hmem fin
      have hdeps := run_fixture_deps_no_finrun env deps st
      rcases run_fixture_post_trace env
          (.builtIn name scope has_finalizer deps)
          (run_fixture_deps env deps st) with htr | htr
      · rw [htr] at hmem
        exact hdeps ev hmem fin
      · rw [htr] at hmem
        rcases List.mem_append.mp hmem with hmem' | hmem'
        · exact hdeps ev hmem' fin
        · rw [List.mem_singleton.mp hmem']
          intro he
          exact RunEvent.noConfusion he
    · intro ev hmem fin
      exact absurd hmem (List.not_mem_nil ev)

/-- Running a dependency list never runs a finalizer. -/
theorem run_fixture_deps_no_finrun (env : GuestEnv) (fs : List Fixture)
    (st : RunnerState) :
    ∀ ev ∈ (run_fixture_deps env fs st).2.2, ∀ fin, ev ≠ RunEvent.runFinalizer fin := by
  match fs with
  | [] =>
    intro ev hmem
    simp [run_fixture_deps] at hmem
  | dep :: rest =>
    simp only [run_fixture_deps]
    rcases hrun : run_fixture env dep st with ⟨r, st1, tr1⟩
    have h1 := run_fixture_no_finrun env dep st
    rw [hrun] at h1
    match r with
    | .error e => exact h1
    | .ok (v, finOpt) =>
      rcases finOpt with _ | fin'
      · dsimp only
        rcases hrest : run_fixture_deps env rest st1 with ⟨r3, st3, tr3⟩
        have h2 := run_fixture_deps_no_finrun env rest st1
        rw [hrest] at h2
        intro ev hmem fin
        rcases List.mem_append.mp hmem with hmem' | hmem'
        · exact h1 ev hmem' fin
        · exact h2 ev hmem' fin
      · dsimp only
        rcases hrest : run_fixture_deps env rest
            { st1 with finalizer_cache := st1.finalizer_cache ++ [fin'] } with ⟨r3, st3, tr3⟩
        have h2 := run_fixture_deps_no_finrun env rest
            { st1 with finalizer_cache := st1.finalizer_cache ++ [fin'] }
        rw [hrest] at h2
        intro ev hmem fin
        rcases List.mem_append.mp hmem with hmem' | hmem'
        · exact h1 ev hmem' fin
        · exact h2 ev hmem' fin
end

/-- The fixture tail only hands a finalizer back to its caller when that
finalizer has Function scope (all others go to the finalizer cache). -/
theorem run_fixture_post_some_scope (env : GuestEnv) (f : Fixture)
    (dr : Except String Unit × RunnerState × List RunEvent) {v : Nat} {fin : Finalizer}
    (h : (run_fixture_post env f dr).1 = .ok (v, some fin)) :
    fin.scope = FixtureScope.Function := by
  obtain ⟨r, st1, tr1⟩ := dr
  match r with
  | .error e => simp [run_fixture_post] at h
  | .ok _ =>
    rcases hcall : fixture_call env f with e | c
    · simp [run_fixture_post, hcall] at h
    · rcases hget : get_value_and_finalizer env f c with e | ⟨value, fin'⟩
      · simp [run_fixture_post, hcall, hget] at h
      · rcases fin' with _ | fin'
        · simp [run_fixture_post, hcall, hget] at h
        · by_cases hsc : fin'.scope = FixtureScope.Function
          · simp [run_fixture_post, hcall, hget, hsc] at h
            rw [← h.2]
            exact hsc
          · simp [run_fixture_post, hcall, hget, if_neg hsc] at h

/-- run_fixture only returns Function-scope finalizers to its caller. -/
theorem run_fixture_some_scope (env : GuestEnv) (f : Fixture) (st : RunnerState)
    {v : Nat} {fin : Finalizer}
    (h : (run_fixture env f st).1 = .ok (v, some fin)) :
    fin.scope = FixtureScope.Function := by
  match f with
  | .userDefined name scope is_generator is_async deps =>
    simp only [run_fixture] at h
    rcases hhit : cacheGet st.fixture_cache
        (Fixture.function_name (.userDefined name scope is_generator is_async deps),
         Fixture.scope (.userDefined name scope is_generator is_async deps)) with _ | cached
    · rw [hhit] at h
      exact run_fixture_post_some_scope env _ _ h
    · rw [hhit] at h
      simp at h
  | .builtIn name scope has_finalizer deps =>
    simp only [run_fixture] at h
    rcases hhit : cacheGet st.fixture_cache
        (Fixture.function_name (.builtIn name scope has_finalizer deps),
         Fixture.scope (.builtIn name scope has_finalizer deps)) with _ | cached
    · rw [hhit] at h
      exact run_fixture_post_some_scope env _ _ h
    · rw [hhit] at h
      simp at h

/-- The auto-use helper loop never runs a finalizer. -/
theorem run_fixtures_no_finrun (env : GuestEnv) (fs : List Fixture) :
    ∀ st : RunnerState, ∀ ev ∈ (run_fixtures env fs st).2.1, ∀ fin,
      ev ≠ RunEvent.runFinalizer fin := by
  induction fs with
  | nil =>
    intro st ev hmem
    simp [run_fixtures] at hmem
  | cons f rest ih =>
    intro st ev hmem fin
    simp only [run_fixtures] at hmem
    rcases hrun : run_fixture env f st with ⟨r, st1, tr1⟩
    rw [hrun] at hmem
    have h1 := run_fixture_no_finrun env f st
    rw [hrun] at h1
    match r with
    | .ok (v, finOpt) =>
      rcases finOpt with _ | fin'
      · dsimp only at hmem
        rcases hrest : run_fixtures env rest st1 with ⟨st3, tr3, errs⟩
        rw [hrest] at hmem
        dsimp only at hmem
        have h2 := ih st1
        rw [hrest] at h2
        rcases List.mem_append.mp hmem with hm | hm
        · exact h1 ev hm fin
        · exact h2 ev hm fin
      · dsimp only at hmem
        rcases hrest : run_fixtures env rest
            { st1 with finalizer_cache := st1.finalizer_cache ++ [fin'] } with ⟨st3, tr3, errs⟩
        rw [hrest] at hmem
        dsimp only at hmem
        have h2 := ih { st1 with finalizer_cache := st1.finalizer_cache ++ [fin'] }
        rw [hrest] at h2
        rcases List.mem_append.mp hmem with hm | hm
        · exact h1 ev hm fin
        · exact h2 ev hm fin
    | .error e =>
      dsimp only at hmem
      rcases hrest : run_fixtures env rest st1 with ⟨st3, tr3, errs⟩
      rw [hrest] at hmem
      dsimp only at hmem
      have h2 := ih st1
      rw [hrest] at h2
      rcases List.mem_append.mp hmem with hm | hm
      · exact h1 ev hm fin
      · exact h2 ev hm fin

/-- The direct-dependency loop of a test never runs a finalizer. -/
theorem run_test_deps_no_finrun (env : GuestEnv) (fs : List Fixture) :
    ∀ st : RunnerState, ∀ ev ∈ (run_test_deps env fs st).2.1, ∀ fin,
      ev ≠ RunEvent.runFinalizer fin := by
  induction fs with
  | nil =>
    intro st ev hmem
    simp [run_test_deps] at hmem
  | cons f rest ih =>
    intro st ev hmem fin
    simp only [run_test_deps] at hmem
    rcases hrun : run_fixture env f st with ⟨r, st1, tr1⟩
    rw [hrun] at hmem
    have h1 := run_fixture_no_finrun env f st
    rw [hrun] at h1
    match r with
    | .ok (v, finOpt) =>
      dsimp only at hmem
      rcases hrest : run_test_deps env rest st1 with ⟨st3, tr3, fins, errs⟩
      rw [hrest] at hmem
      dsimp only at hmem
      have h2 := ih st1
      rw [hrest] at h2
      rcases List.mem_append.mp hmem with hm | hm
      · exact h1 ev hm fin
      · exact h2 ev hm fin
    | .error e =>
      dsimp only at hmem
      rcases hrest : run_test_deps env rest st1 with ⟨st3, tr3, fins, errs⟩
      rw [hrest] at hmem
      dsimp only at hmem
      have h2 := ih st1
      rw [hrest] at h2
      rcases List.mem_append.mp hmem with hm | hm
      · exact h1 ev hm fin
      · exact h2 ev hm fin

/-- Every finalizer the direct-dependency loop collects for the test has
Function scope. -/
theorem run_test_deps_fins_scope (env : GuestEnv) (fs : List Fixture) :
    ∀ st : RunnerState, ∀ fin ∈ (run_test_deps env fs st).2.2.1,
      fin.scope = FixtureScope.Function := by
  induction fs with
  | nil =>
    intro st fin hmem
    simp [run_test_deps] at hmem
  | cons f rest ih =>
    intro st fin hmem
    simp only [run_test_deps] at hmem
    rcases hrun : run_fixture env f st with ⟨r, st1, tr1⟩
    rw [hrun] at hmem
    match r with
    | .ok (v, finOpt) =>
      dsimp only at hmem
      rcases hrest : run_test_deps env rest st1 with ⟨st3, tr3, fins, errs⟩
      rw [hrest] at hmem
      dsimp only at hmem
      have h2 := ih st1
      rw [hrest] at h2
      rcases finOpt with _ | fin'
      · dsimp only at hmem
        exact h2 fin hmem
      · dsimp only at hmem
        rcases List.mem_cons.mp hmem with hm | hm
        · subst hm
          exact run_fixture_some_scope env f st (by rw [hrun])
        · exact h2 fin hm
    | .error e =>
      dsimp only at hmem
      rcases hrest : run_test_deps env rest st1 with ⟨st3, tr3, fins, errs⟩
      rw [hrest] at hmem
      dsimp only at hmem
      have h2 := ih st1
      rw [hrest] at h2
      exact h2 fin hmem

/-- The test invocation and its retries never run a finalizer. -/
theorem run_test_with_retry_no_finrun (env : GuestEnv) (name : String)
    (retry : Nat) :
    ∀ ev ∈ (run_test_with_retry env name retry).2, ∀ fin,
      ev ≠ RunEvent.runFinalizer fin := by
  intro ev hmem fin
  simp only [run_test_with_retry] at hmem
  rcases henv : env.testResult name with e | u
  · rw [henv] at hmem
    dsimp only at hmem
    rw [List.eq_of_mem_replicate hmem]
    intro he
    exact RunEvent.noConfusion he
  · rw [henv] at hmem
    dsimp only at hmem
    rw [List.mem_singleton.mp hmem]
    intro he
    exact RunEvent.noConfusion he

/-- Fixture setup for a test never runs a finalizer. -/
theorem setup_test_fixtures_no_finrun (env : GuestEnv)
    (fd ufd auf : List Fixture) (st : RunnerState) :
    ∀ ev ∈ (setup_test_fixtures env fd ufd auf st).2.1, ∀ fin,
      ev ≠ RunEvent.runFinalizer fin := by
  intro ev hmem fin
  simp only [setup_test_fixtures] at hmem
  rcases h1 : run_fixtures env ufd st with ⟨st1, tr1, errs1⟩
  rw [h1] at hmem
  dsimp only at hmem
  rcases h2 : run_test_deps env fd st1 with ⟨st2, tr2, fins, errs2⟩
  rw [h2] at hmem
  dsimp only at hmem
  rcases h3 : run_fixtures env auf st2 with ⟨st3, tr3, errs3⟩
  rw [h3] at hmem
  dsimp only at hmem
  have g1 := run_fixtures_no_finrun env ufd st
  rw [h1] at g1
  have g2 := run_test_deps_no_finrun env fd st1
  rw [h2] at g2
  have g3 := run_fixtures_no_finrun env auf st2
  rw [h3] at g3
  rcases List.mem_append.mp hmem with hm | hm
  · rcases List.mem_append.mp hm with hm' | hm'
    · exact g1 ev hm' fin
    · exact g2 ev hm' fin
  · exact g3 ev hm fin

/-- Every finalizer setup collects for the test has Function scope. -/
theorem setup_test_fixtures_fins_scope (env : GuestEnv)
    (fd ufd auf : List Fixture) (st : RunnerState) :
    ∀ fin ∈ (setup_test_fixtures env fd ufd auf st).2.2.1,
      fin.scope = FixtureScope.Function := by
  intro fin hmem
  simp only [setup_test_fixtures] at hmem
  rcases h1 : run_fixtures env ufd st with ⟨st1, tr1, errs1⟩
  rw [h1] at hmem
  dsimp only at hmem
  rcases h2 : run_test_deps env fd st1 with ⟨st2, tr2, fins, errs2⟩
  rw [h2] at hmem
  dsimp only at hmem
  have g2 := run_test_deps_fins_scope env fd st1
  rw [h2] at g2
  exact g2 fin hmem

/-- Every finalizer event in a test variant's trace runs a Function-scope
finalizer: higher-scope finalizers are never run with the test. -/
theorem execute_test_variant_finrun_scope (env : GuestEnv) (retry : Nat)
    (v : TestVariant) (st : RunnerState) :
    ∀ fin, RunEvent.runFinalizer fin ∈ (execute_test_variant env retry v st).2.2 →
      fin.scope = FixtureScope.Function := by
  intro fin hmem
  by_cases hskip : v.should_skip = true
  · simp [execute_test_variant, hskip] at hmem
  · simp only [execute_test_variant] at hmem
    rw [if_neg hskip] at hmem
    rcases hs : setup_test_fixtures env v.fixture_dependencies
        v.use_fixture_dependencies v.auto_use_fixtures st with ⟨st1, trS, fins, errs⟩
    rw [hs] at hmem
    dsimp only at hmem
    rcases hrt : run_test_with_retry env v.name retry with ⟨res, trT⟩
    rw [hrt] at hmem
    dsimp only at hmem
    have htrC : (clean_up_scope st1 FixtureScope.Function).2
        = ((st1.finalizer_cache.filter
            (fun f => f.scope = FixtureScope.Function)).reverse).map
            (fun f => RunEvent.runFinalizer f) := rfl
    rw [htrC] at hmem
    have g1 := setup_test_fixtures_no_finrun env v.fixture_dependencies
        v.use_fixture_dependencies v.auto_use_fixtures st
    rw [hs] at g1
    have g2 := run_test_with_retry_no_finrun env v.name retry
    rw [hrt] at g2
    rcases List.mem_append.mp hmem with hm | hm
    · rcases List.mem_append.mp hm with hm' | hm'
      · rcases List.mem_append.mp hm' with hm'' | hm''
        · exact absurd rfl (g1 _ hm'' fin)
        · exact absurd rfl (g2 _ hm'' fin)
      · rcases List.mem_map.mp hm' with ⟨f', hf'mem, heq⟩
        have hfe : f' = fin := by
          injection heq
        rw [← hfe]
        have g3 := setup_test_fixtures_fins_scope env v.fixture_dependencies
            v.use_fixture_dependencies v.auto_use_fixtures st
        rw [hs] at g3
        exact g3 f' (List.mem_reverse.mp hf'mem)
    · rcases List.mem_map.mp hm with ⟨f', hf'mem, heq⟩
      have hfe : f' = fin := by
        injection heq
      rw [← hfe]
      have := List.mem_filter.mp (List.mem_reverse.mp hf'mem)
      exact of_decide_eq_true this.2

/-- Every finalizer event a variant list emits is Function-scope. -/
theorem execute_variants_finrun_scope (env : GuestEnv) (retry : Nat)
    (fail_fast : Bool) (vs : List TestVariant) :
    ∀ (st : RunnerState) (passed : Bool) (fin : Finalizer),
      RunEvent.runFinalizer fin
        ∈ (execute_variants env retry fail_fast vs st passed).2.2 →
      fin.scope = FixtureScope.Function := by
  induction vs with
  | nil =>
    intro st passed fin hmem
    simp [execute_variants] at hmem
  | cons v rest ih =>
    intro st passed fin hmem
    simp only [execute_variants] at hmem
    rcases hv : execute_test_variant env retry v st with ⟨p, st1, tr1⟩
    rw [hv] at hmem
    dsimp only at hmem
    have g1 := execute_test_variant_finrun_scope env retry v st
    rw [hv] at g1
    by_cases hff : (fail_fast && !(passed && p)) = true
    · rw [if_pos hff] at hmem
      exact g1 fin hmem
    · rw [if_neg hff] at hmem
      rcases hrest : execute_variants env retry fail_fast rest st1 (passed && p)
          with ⟨p3, st3, tr3⟩
      rw [hrest] at hmem
      dsimp only at hmem
      have g2 := ih st1 (passed && p) fin
      rw [hrest] at g2
      rcases List.mem_append.mp hmem with hm | hm
      · exact g1 fin hm
      · exact g2 hm

/-- Every finalizer event the test-function loop emits is Function-scope. -/
theorem execute_tests_finrun_scope (env : GuestEnv) (retry : Nat)
    (fail_fast : Bool) (tests : List (List TestVariant)) :
    ∀ (st : RunnerState) (passed : Bool) (fin : Finalizer),
      RunEvent.runFinalizer fin
        ∈ (execute_tests env retry fail_fast tests st passed).2.2 →
      fin.scope = FixtureScope.Function := by
  induction tests with
  | nil =>
    intro st passed fin hmem
    simp [execute_tests] at hmem
  | cons vs rest ih =>
    intro st passed fin hmem
    simp only [execute_tests] at hmem
    rcases hv : execute_variants env retry fail_fast vs st passed with ⟨p, st1, tr1⟩
    rw [hv] at hmem
    dsimp only at hmem
    have g1 := execute_variants_finrun_scope env retry fail_fast vs st passed fin
    rw [hv] at g1
    by_cases hff : (fail_fast && !p) = true
    · rw [if_pos hff] at hmem
      exact g1 hmem
    · rw [if_neg hff] at hmem
      rcases hrest : execute_tests env retry fail_fast rest st1 p with ⟨p3, st3, tr3⟩
      rw [hrest] at hmem
      dsimp only at hmem
      have g2 := ih st1 p fin
      rw [hrest] at g2
      rcases List.mem_append.mp hmem with hm | hm
      · exact g1 hm
      · exact g2 hm

/-- Trace and finalizer-cache shape of one non-skipped test variant: setup,
then the test, then the collected test finalizers in reverse insertion
order, then the Function-scope cleanup, which drains exactly the
Function-scope cache entries in reverse order and retains the others. -/
theorem execute_test_variant_shape (env : GuestEnv) (retry : Nat)
    (v : TestVariant) (st : RunnerState) (hskip : v.should_skip = false) :
    (execute_test_variant env retry v st).2.2
      = (setup_test_fixtures env v.fixture_dependencies v.use_fixture_dependencies
          v.auto_use_fixtures st).2.1
        ++ (run_test_with_retry env v.name retry).2
        ++ (((setup_test_fixtures env v.fixture_dependencies v.use_fixture_dependencies
            v.auto_use_fixtures st).2.2.1).reverse).map
            (fun fin => RunEvent.runFinalizer fin)
        ++ ((((setup_test_fixtures env v.fixture_dependencies v.use_fixture_dependencies
            v.auto_use_fixtures st).1.finalizer_cache).filter
            (fun f => f.scope = FixtureScope.Function)).reverse).map
            (fun f => RunEvent.runFinalizer f) ∧
    (execute_test_variant env retry v st).2.1.finalizer_cache
      = ((setup_test_fixtures env v.fixture_dependencies v.use_fixture_dependencies
          v.auto_use_fixtures st).1.finalizer_cache).filter
          (fun f => f.scope ≠ FixtureScope.Function) := by
  simp only [execute_test_variant]
  rw [if_neg (by simp [hskip])]
  rcases hs : setup_test_fixtures env v.fixture_dependencies v.use_fixture_dependencies
      v.auto_use_fixtures st with ⟨st1, trS, fins, errs⟩
  dsimp only
  rcases hrt : run_test_with_retry env v.name retry with ⟨res, trT⟩
  dsimp only
  exact ⟨rfl, rfl⟩

/-- **C2**: Teardown LIFO. For one non-skipped test variant the trace is:
setup, then the test, then the variant's collected finalizers in reverse
insertion order, then the Function-scope cleanup, which drains exactly the
Function-scope finalizer-cache entries in reverse insertion order and
retains the higher scopes; every finalizer collected for the variant has
Function scope and setup itself runs no finalizer. At module level no
Module-scope finalizer runs during the auto-use setup or the tests; the
module trace ends with the pending Module-scope finalizers in reverse
insertion order; and no Module-scope finalizer remains cached afterwards —
so each runs exactly once, after all of the module's tests. -/
theorem c2_teardown_lifo (env : GuestEnv) (retry : Nat) (fail_fast : Bool)
    (m : ModuleSpec) (v : TestVariant) (st stM : RunnerState)
    (hskip : v.should_skip = false) :
    ((execute_test_variant env retry v st).2.2
      = (setup_test_fixtures env v.fixture_dependencies v.use_fixture_dependencies
          v.auto_use_fixtures st).2.1
        ++ (run_test_with_retry env v.name retry).2
        ++ (((setup_test_fixtures env v.fixture_dependencies v.use_fixture_dependencies
            v.auto_use_fixtures st).2.2.1).reverse).map
            (fun fin => RunEvent.runFinalizer fin)
        ++ ((((setup_test_fixtures env v.fixture_dependencies v.use_fixture_dependencies
            v.auto_use_fixtures st).1.finalizer_cache).filter
            (fun f => f.scope = FixtureScope.Function)).reverse).map
            (fun f => RunEvent.runFinalizer f)) ∧
    (∀ fin ∈ (setup_test_fixtures env v.fixture_dependencies v.use_fixture_dependencies
        v.auto_use_fixtures st).2.2.1, fin.scope = FixtureScope.Function) ∧
    (∀ ev ∈ (setup_test_fixtures env v.fixture_dependencies v.use_fixture_dependencies
        v.auto_use_fixtures st).2.1, ∀ fin, ev ≠ RunEvent.runFinalizer fin) ∧
    ((execute_test_variant env retry v st).2.1.finalizer_cache
      = ((setup_test_fixtures env v.fixture_dependencies v.use_fixture_dependencies
          v.auto_use_fixtures st).1.finalizer_cache).filter
          (fun f => f.scope ≠ FixtureScope.Function)) ∧
    ((execute_module env retry fail_fast m stM).2.2
      = (run_fixtures env m.auto_use stM).2.1
        ++ (execute_tests env retry fail_fast m.tests
            (run_fixtures env m.auto_use stM).1 true).2.2
        ++ ((((execute_tests env retry fail_fast m.tests
            (run_fixtures env m.auto_use stM).1 true).2.1.finalizer_cache).filter
            (fun f => f.scope = FixtureScope.Module)).reverse).map
            (fun f => RunEvent.runFinalizer f)) ∧
    (∀ fin : Finalizer, fin.scope = FixtureScope.Module →
      (∀ ev ∈ (run_fixtures env m.auto_use stM).2.1,
        ev ≠ RunEvent.runFinalizer fin) ∧
      (∀ ev ∈ (execute_tests env retry fail_fast m.tests
          (run_fixtures env m.auto_use stM).1 true).2.2,
        ev ≠ RunEvent.runFinalizer fin)) ∧
    (∀ fin ∈ (execute_module env retry fail_fast m stM).2.1.finalizer_cache,
      fin.scope ≠ FixtureScope.Module) := by
  refine ⟨(execute_test_variant_shape env retry v st hskip).1,
    setup_test_fixtures_fins_scope env v.fixture_dependencies
      v.use_fixture_dependencies v.auto_use_fixtures st,
    setup_test_fixtures_no_finrun env v.fixture_dependencies
      v.use_fixture_dependencies v.auto_use_fixtures st,
    (execute_test_variant_shape env retry v st hskip).2, ?_, ?_, ?_⟩
  · simp only [execute_module]
    rcases hrf : run_fixtures env m.auto_use stM with ⟨st1, tr1, errs⟩
    dsimp only
    rcases het : execute_tests env retry fail_fast m.tests st1 true with ⟨p, st2, tr2⟩
    dsimp only
    rfl
  · intro fin hscope
    refine ⟨?_, ?_⟩
    · intro ev hmem
      exact run_fixtures_no_finrun env m.auto_use stM ev hmem fin
    · intro ev hmem heq
      have hsc := execute_tests_finrun_scope env retry fail_fast m.tests
          (run_fixtures env m.auto_use stM).1 true fin (heq ▸ hmem)
      rw [hscope] at hsc
      exact FixtureScope.noConfusion hsc
  · intro fin hmem
    simp only [execute_module] at hmem
    rcases hrf : run_fixtures env m.auto_use stM with ⟨st1, tr1, errs⟩
    rw [hrf] at hmem
    dsimp only at hmem
    rcases het : execute_tests env retry fail_fast m.tests st1 true with ⟨p, st2, tr2⟩
    rw [het] at hmem
    dsimp only at hmem
    have hmem2 : fin ∈ st2.finalizer_cache.filter
        (fun f => f.scope ≠ FixtureScope.Module) := hmem
    exact of_decide_eq_true (List.mem_filter.mp hmem2).2

/-- Witness for C2 at a concrete module with one test variant owning one
Function-scope fixture dependency. -/
theorem c2_teardown_lifo_witness :
    c2v.should_skip = false ∧
    (((execute_test_variant envA 0 c2v st0).2.2
      = (setup_test_fixtures envA c2v.fixture_dependencies c2v.use_fixture_dependencies
          c2v.auto_use_fixtures st0).2.1
        ++ (run_test_with_retry envA c2v.name 0).2
        ++ (((setup_test_fixtures envA c2v.fixture_dependencies c2v.use_fixture_dependencies
            c2v.auto_use_fixtures st0).2.2.1).reverse).map
            (fun fin => RunEvent.runFinalizer fin)
        ++ ((((setup_test_fixtures envA c2v.fixture_dependencies c2v.use_fixture_dependencies
            c2v.auto_use_fixtures st0).1.finalizer_cache).filter
            (fun f => f.scope = FixtureScope.Function)).reverse).map
            (fun f => RunEvent.runFinalizer f)) ∧
    (∀ fin ∈ (setup_test_fixtures envA c2v.fixture_dependencies c2v.use_fixture_dependencies
        c2v.auto_use_fixtures st0).2.2.1, fin.scope = FixtureScope.Function) ∧
    (∀ ev ∈ (setup_test_fixtures envA c2v.fixture_dependencies c2v.use_fixture_dependencies
        c2v.auto_use_fixtures st0).2.1, ∀ fin, ev ≠ RunEvent.runFinalizer fin) ∧
    ((execute_test_variant envA 0 c2v st0).2.1.finalizer_cache
      = ((setup_test_fixtures envA c2v.fixture_dependencies c2v.use_fixture_dependencies
          c2v.auto_use_fixtures st0).1.finalizer_cache).filter
          (fun f => f.scope ≠ FixtureScope.Function)) ∧
    ((execute_module envA 0 false c2m st0).2.2
      = (run_fixtures envA c2m.auto_use st0).2.1
        ++ (execute_tests envA 0 false c2m.tests
            (run_fixtures envA c2m.auto_use st0).1 true).2.2
        ++ ((((execute_tests envA 0 false c2m.tests
            (run_fixtures envA c2m.auto_use st0).1 true).2.1.finalizer_cache).filter
            (fun f => f.scope = FixtureScope.Module)).reverse).map
            (fun f => RunEvent.runFinalizer f)) ∧
    (∀ fin : Finalizer, fin.scope = FixtureScope.Module →
      (∀ ev ∈ (run_fixtures envA c2m.auto_use st0).2.1,
        ev ≠ RunEvent.runFinalizer fin) ∧
      (∀ ev ∈ (execute_tests envA 0 false c2m.tests
          (run_fixtures envA c2m.auto_use st0).1 true).2.2,
        ev ≠ RunEvent.runFinalizer fin)) ∧
    (∀ fin ∈ (execute_module envA 0 false c2m st0).2.1.finalizer_cache,
      fin.scope ≠ FixtureScope.Module)) :=
  ⟨rfl, c2_teardown_lifo envA 0 false c2m c2v st0 st0 rfl⟩

end Karva
